import Mathlib

/-!
Verification model of the torshare tracker core.

Shallow embedding of the tracker's sharded in-memory swarm store
(`src/storage/memory.rs`, `src/models/torrent.rs`, `src/models/peer.rs`),
the announce task executor (`src/worker/tasks/announce.rs`), the
full-scrape cache (`src/servers/cache/{mod,full_scrape}.rs` together with
`src/servers/http/handler.rs`), the connection pool
(`libs/pool/src/internals.rs`) and the bencode map serializers
(`libs/utils/src/bencode.rs`).

Machine integers (`u32` counters, `usize` lengths) are modelled as `Nat`;
the counters involved are monotone and no claim hinges on wrap-around.
`IndexMap<K, V>` is modelled as an association list with the `IndexMap`
insert semantics: replacing an existing key keeps its position, a new key
is appended at the end.
-/

namespace TorShare

/-! ## Shared primitives (src/models/common.rs, src/models/peer.rs) -/

/-- Address family of a peer (models `IpType`). -/
inductive IpType
  | V4
  | V6
deriving DecidableEq, Repr

/-- Role of a peer in a swarm (models `PeerType`; the source's third
variant is named `Partial`, rendered here as `PartialSeed`). -/
inductive PeerType
  | Leecher
  | Seeder
  | PartialSeed
deriving DecidableEq, Repr

/-- Compact peer address: raw bytes tagged by family
(models `PeerAddr` with `PeerAddrV4([u8; 6])` / `PeerAddrV6([u8; 18])`). -/
inductive PeerAddr
  | v4 (bytes : List Nat)
  | v6 (bytes : List Nat)
deriving DecidableEq, Repr

/-- Models `PeerAddr::ip_type`. -/
def PeerAddr.ipType : PeerAddr → IpType
  | .v4 _ => .V4
  | .v6 _ => .V6

/-- A peer as stored in swarm tables (models `Peer { addr, expire_at }`
from src/models/peer.rs; `expire_at` is a duration since epoch). -/
structure Peer where
  addr : PeerAddr
  expireAt : Nat
deriving DecidableEq, Repr

/-- Models `Peer::ip_type`. -/
def Peer.ipType (p : Peer) : IpType := p.addr.ipType

/-- Infohash: raw bytes (20 in practice; the model does not need the bound). -/
abbrev InfoHash := List Nat

/-- Key identifying a peer inside swarm tables: the peer id concatenated
with the optional user key (models `PeerIdKey::new`). -/
abbrev PeerIdKey := List Nat

/-- Models `PeerIdKey::new(peer_id, key)`: concatenation of the 20-byte
peer id with the optional client key. -/
def mkPeerIdKey (peerId : List Nat) (key : Option (List Nat)) : PeerIdKey :=
  peerId ++ key.getD []

/-- Modelled from the spec: the `Torrent` record (its definition is not in
the sources, only its uses): a completion counter, `u32` in the source.
`Torrent::incr_completed` mirrors `TorrentStats::incr_completed`
(src/models/torrent.rs line 177): `self.completed += 1`. -/
structure Torrent where
  completed : Nat
deriving DecidableEq, Repr

instance : Inhabited Torrent := ⟨⟨0⟩⟩

/-- Models `incr_completed` (`self.completed += 1`). -/
def Torrent.incrCompleted (t : Torrent) : Torrent := ⟨t.completed + 1⟩

/-! ## IndexMap model

`IndexMap<K, V, RandomState>` is modelled as an association list:
insertion order is the list order, `insert` replaces in place or appends,
`remove` drops the entry with the key (keys are unique in every map the
code builds; filtering is membership-equivalent). -/

/-- Association-list model of `IndexMap<K, V>`. -/
abbrev IndexMapM (K V : Type) := List (K × V)

/-- Models `IndexMap::get` (first — and in the maps the code builds,
only — entry with the key). -/
def imLookup {K V : Type} [DecidableEq K] : IndexMapM K V → K → Option V
  | [], _ => none
  | e :: rest, k => if e.1 = k then some e.2 else imLookup rest k

/-- Models `IndexMap::contains_key`. -/
def imContains {K V : Type} [DecidableEq K] (m : IndexMapM K V) (k : K) : Bool :=
  (imLookup m k).isSome

/-- Models `IndexMap::insert`: replace in place if present, append otherwise. -/
def imInsert {K V : Type} [DecidableEq K] (m : IndexMapM K V) (k : K) (v : V) :
    IndexMapM K V :=
  if imContains m k then
    m.map (fun e => if e.1 = k then (k, v) else e)
  else
    m ++ [(k, v)]

/-- Models an in-place update through `get_mut` (`IndexMap::get_mut`):
the entry with key `k` has its value rewritten by `f`. -/
def imUpdate {K V : Type} [DecidableEq K] (m : IndexMapM K V) (k : K) (f : V → V) :
    IndexMapM K V :=
  m.map (fun e => if e.1 = k then (e.1, f e.2) else e)

/-- Models `IndexMap::remove` (membership level: the entry with key `k`
is dropped). -/
def imRemove {K V : Type} [DecidableEq K] (m : IndexMapM K V) (k : K) :
    IndexMapM K V :=
  m.filter (fun e => !(decide (e.1 = k)))

/-! ## Torrent swarm (src/models/torrent.rs) -/

/-- Models `PeerDict = IndexMap<PeerIdKey, Peer>`. -/
abbrev PeerDict := IndexMapM PeerIdKey Peer

/-- Models `TorrentSwarm`: three insertion-ordered peer tables. -/
structure TorrentSwarm where
  seeders : PeerDict
  leechers : PeerDict
  partialSeeds : PeerDict
deriving DecidableEq, Repr

instance : Inhabited TorrentSwarm := ⟨⟨[], [], []⟩⟩

/-- Modelled from the spec: the `update_peer_fields!` macro in
src/models/torrent.rs targets an older `Peer` layout (transfer counters
and per-family optional addresses) that is absent from the sources; for
the in-source `Peer { addr, expire_at }` the spec's "update only its
address and expiry" is full replacement of the stored value. -/
def updatePeerFields (_old newPeer : Peer) : Peer := newPeer

/-- Models `TorrentSwarm::insert_peer`. -/
def TorrentSwarm.insertPeer (sw : TorrentSwarm) (k : PeerIdKey) (v : Peer)
    (pt : PeerType) : TorrentSwarm :=
  match pt with
  | .Leecher => { sw with leechers := imInsert sw.leechers k v }
  | .Seeder => { sw with seeders := imInsert sw.seeders k v }
  | .PartialSeed => { sw with partialSeeds := imInsert sw.partialSeeds k v }

/-- Models `TorrentSwarm::promote_peer`: remove from leechers; when an
entry was removed, merge the announce's fields into it and insert it into
seeders, returning `true`. -/
def TorrentSwarm.promotePeer (sw : TorrentSwarm) (k : PeerIdKey) (newPeer : Peer) :
    Bool × TorrentSwarm :=
  match imLookup sw.leechers k with
  | some peer =>
      (true,
        TorrentSwarm.insertPeer { sw with leechers := imRemove sw.leechers k }
          k (updatePeerFields peer newPeer) .Seeder)
  | none => (false, sw)

/-- Models `TorrentSwarm::update_or_insert_peer`: `get_mut_peer` looks in
the leechers table for a leecher and in seeders then partial seeds
otherwise; an existing entry is updated in place, otherwise the peer is
inserted into the table named by `pt`. -/
def TorrentSwarm.updateOrInsertPeer (sw : TorrentSwarm) (k : PeerIdKey)
    (newPeer : Peer) (pt : PeerType) : TorrentSwarm :=
  match pt with
  | .Leecher =>
      if imContains sw.leechers k then
        { sw with leechers := imUpdate sw.leechers k (fun old => updatePeerFields old newPeer) }
      else
        sw.insertPeer k newPeer pt
  | _ =>
      if imContains sw.seeders k then
        { sw with seeders := imUpdate sw.seeders k (fun old => updatePeerFields old newPeer) }
      else if imContains sw.partialSeeds k then
        { sw with partialSeeds := imUpdate sw.partialSeeds k (fun old => updatePeerFields old newPeer) }
      else
        sw.insertPeer k newPeer pt

/-- Models `TorrentSwarm::remove_peer` (state effect): a leecher is
removed from leechers; otherwise the peer is removed from seeders if
present there, else from partial seeds. -/
def TorrentSwarm.removePeer (sw : TorrentSwarm) (k : PeerIdKey) (pt : PeerType) :
    TorrentSwarm :=
  match pt with
  | .Leecher => { sw with leechers := imRemove sw.leechers k }
  | _ =>
      if imContains sw.seeders k then
        { sw with seeders := imRemove sw.seeders k }
      else
        { sw with partialSeeds := imRemove sw.partialSeeds k }

/-! ## Sharded in-memory store (src/storage/memory.rs) -/

/-- Models `SwarmsMap`: one swarm dictionary per address family. -/
structure SwarmsMap where
  v4 : IndexMapM InfoHash TorrentSwarm
  v6 : IndexMapM InfoHash TorrentSwarm
deriving DecidableEq, Repr

instance : Inhabited SwarmsMap := ⟨⟨[], []⟩⟩

/-- Models `SwarmsMap::get`. -/
def SwarmsMap.get (m : SwarmsMap) (ih : InfoHash) (fam : IpType) :
    Option TorrentSwarm :=
  match fam with
  | .V4 => imLookup m.v4 ih
  | .V6 => imLookup m.v6 ih

/-- Writes the swarm for `(ih, fam)` (the result of mutating the swarm
obtained through `get_mut_or_insert_swarm` in place, or of inserting a
default swarm first). -/
def SwarmsMap.set (m : SwarmsMap) (ih : InfoHash) (fam : IpType)
    (sw : TorrentSwarm) : SwarmsMap :=
  match fam with
  | .V4 => { m with v4 := imInsert m.v4 ih sw }
  | .V6 => { m with v6 := imInsert m.v6 ih sw }

/-- Models `get_mut_or_insert_swarm`'s read: the stored swarm, or a
default (empty) one that is about to be inserted. -/
def SwarmsMap.getD (m : SwarmsMap) (ih : InfoHash) (fam : IpType) : TorrentSwarm :=
  (m.get ih fam).getD default

/-- Models `Shard`: a torrents map and a swarms map behind two locks. -/
structure Shard where
  torrents : IndexMapM InfoHash Torrent
  swarms : SwarmsMap
deriving DecidableEq, Repr

instance : Inhabited Shard := ⟨⟨[], default⟩⟩

/-- Models `MemoryStorage { shards: Vec<Shard> }`. -/
structure MemoryStorage where
  shards : List Shard
deriving DecidableEq, Repr

/-- Big-endian u32 from the first four bytes (models
`u32::from_be_bytes(data[0..4])`). -/
def u32be (data : List Nat) : Nat :=
  ((data.getD 0 0 * 256 + data.getD 1 0) * 256 + data.getD 2 0) * 256 + data.getD 3 0

/-- Models `MemoryStorage::get_shard_index`. -/
def MemoryStorage.getShardIndex (s : MemoryStorage) (data : List Nat) : Nat :=
  u32be data % s.shards.length

/-- Models `MemoryStorage::get_shard`. -/
def MemoryStorage.getShard (s : MemoryStorage) (ih : InfoHash) : Shard :=
  s.shards.getD (s.getShardIndex ih) default

/-- Replaces the shard routed to by `ih` (the shard mutated in place
under its lock in the source). -/
def MemoryStorage.setShard (s : MemoryStorage) (ih : InfoHash) (sh : Shard) :
    MemoryStorage :=
  ⟨s.shards.set (s.getShardIndex ih) sh⟩

/-- Models `MemoryStorage::with_shards` (the source asserts
`shard_count > 0`). -/
def mkMemoryStorage (shardCount : Nat) : MemoryStorage :=
  ⟨List.replicate shardCount default⟩

/-- Tracker errors surfaced by the modelled operations (the
`TRACKER_ERROR_*` constants used by the store and the announce task). -/
inductive TrackerErr
  | notFoundTorrent
  | blockedInfohash
  | invalidAnnounceRequest
deriving DecidableEq, Repr

instance {ε α : Type} [DecidableEq ε] [DecidableEq α] : DecidableEq (Except ε α) :=
  fun a b =>
    match a, b with
    | .ok x, .ok y =>
        if h : x = y then .isTrue (by rw [h])
        else .isFalse (fun hh => h (Except.ok.inj hh))
    | .ok _, .error _ => .isFalse (fun hh => Except.noConfusion hh)
    | .error _, .ok _ => .isFalse (fun hh => Except.noConfusion hh)
    | .error e, .error f =>
        if h : e = f then .isTrue (by rw [h])
        else .isFalse (fun hh => h (Except.error.inj hh))

/-- Models `MemoryStorage::insert_torrent`: unconditional
`IndexMap::insert` of `torrent.unwrap_or_default()`. -/
def MemoryStorage.insertTorrent (s : MemoryStorage) (ih : InfoHash)
    (torrent : Option Torrent) : MemoryStorage :=
  let sh := s.getShard ih
  s.setShard ih { sh with torrents := imInsert sh.torrents ih (torrent.getD default) }

/-- Models `MemoryStorage::has_torrent`. -/
def MemoryStorage.hasTorrent (s : MemoryStorage) (ih : InfoHash) : Bool :=
  imContains (s.getShard ih).torrents ih

/-- Models `MemoryStorage::put_peer_in_swarm`: `write_swarm!` obtains (or
creates) the swarm for `(ih, peer.ip_type())` and `insert_peer`s into it. -/
def MemoryStorage.putPeerInSwarm (s : MemoryStorage) (ih : InfoHash)
    (k : PeerIdKey) (p : Peer) (pt : PeerType) : MemoryStorage :=
  let fam := p.ipType
  let sh := s.getShard ih
  let sw := sh.swarms.getD ih fam
  s.setShard ih { sh with swarms := sh.swarms.set ih fam (sw.insertPeer k p pt) }

/-- Models `MemoryStorage::update_or_put_peer_in_swarm`. -/
def MemoryStorage.updateOrPutPeerInSwarm (s : MemoryStorage) (ih : InfoHash)
    (k : PeerIdKey) (p : Peer) (pt : PeerType) : MemoryStorage :=
  let fam := p.ipType
  let sh := s.getShard ih
  let sw := sh.swarms.getD ih fam
  s.setShard ih { sh with swarms := sh.swarms.set ih fam (sw.updateOrInsertPeer k p pt) }

/-- Models `MemoryStorage::promote_peer_in_swarm`: mutate the swarm via
`promote_peer` first; when it reports a removal, increment `completed` on
the stored torrent (`get_mut_torrent` fails with `NotFoundTorrent` when
the torrent is absent, after the swarm mutation already happened). -/
def MemoryStorage.promotePeerInSwarm (s : MemoryStorage) (ih : InfoHash)
    (k : PeerIdKey) (p : Peer) : Except TrackerErr Unit × MemoryStorage :=
  let fam := p.ipType
  let sh := s.getShard ih
  let sw := sh.swarms.getD ih fam
  let r := sw.promotePeer k p
  let s1 := s.setShard ih { sh with swarms := sh.swarms.set ih fam r.2 }
  if r.1 then
    let sh1 := s1.getShard ih
    match imLookup sh1.torrents ih with
    | some _ =>
        (.ok (), s1.setShard ih { sh1 with torrents := imUpdate sh1.torrents ih Torrent.incrCompleted })
    | none => (.error .notFoundTorrent, s1)
  else
    (.ok (), s1)

/-- Models `MemoryStorage::remove_peer_from_swarm`: only mutates when the
swarm for `(ih, fam)` exists (`get_mut`, not insert). -/
def MemoryStorage.removePeerFromSwarm (s : MemoryStorage) (ih : InfoHash)
    (k : PeerIdKey) (pt : PeerType) (fam : IpType) : MemoryStorage :=
  let sh := s.getShard ih
  match sh.swarms.get ih fam with
  | some sw => s.setShard ih { sh with swarms := sh.swarms.set ih fam (sw.removePeer k pt) }
  | none => s

/-! ### Observation functions -/

/-- The completion counter stored for `ih`, if the torrent exists. -/
def completedOf (s : MemoryStorage) (ih : InfoHash) : Option Nat :=
  (imLookup (s.getShard ih).torrents ih).map (·.completed)

/-- The swarm stored for `(ih, fam)` (empty when absent). -/
def swarmOf (s : MemoryStorage) (ih : InfoHash) (fam : IpType) : TorrentSwarm :=
  (s.getShard ih).swarms.getD ih fam

/-! ## Step relation over the store operations (claim C2) -/

/-- One application of a peer-table operation of the in-memory store. -/
inductive StoreStep : MemoryStorage → MemoryStorage → Prop
  | put (s : MemoryStorage) (ih : InfoHash) (k : PeerIdKey) (p : Peer) (pt : PeerType) :
      StoreStep s (s.putPeerInSwarm ih k p pt)
  | updateOrPut (s : MemoryStorage) (ih : InfoHash) (k : PeerIdKey) (p : Peer) (pt : PeerType) :
      StoreStep s (s.updateOrPutPeerInSwarm ih k p pt)
  | promote (s : MemoryStorage) (ih : InfoHash) (k : PeerIdKey) (p : Peer) :
      StoreStep s (s.promotePeerInSwarm ih k p).2
  | remove (s : MemoryStorage) (ih : InfoHash) (k : PeerIdKey) (pt : PeerType) (fam : IpType) :
      StoreStep s (s.removePeerFromSwarm ih k pt fam)

/-- States reachable from a freshly created store by the four peer-table
operations. -/
def StoreReachable (shardCount : Nat) (s : MemoryStorage) : Prop :=
  Relation.ReflTransGen StoreStep (mkMemoryStorage shardCount) s

/-- The three tables of a swarm are pairwise disjoint. -/
def TablesDisjoint (sw : TorrentSwarm) : Prop :=
  ∀ k : PeerIdKey,
    ¬(imContains sw.seeders k = true ∧ imContains sw.leechers k = true)
    ∧ ¬(imContains sw.seeders k = true ∧ imContains sw.partialSeeds k = true)
    ∧ ¬(imContains sw.leechers k = true ∧ imContains sw.partialSeeds k = true)

/-- Every swarm of the store has pairwise disjoint tables. -/
def StoreDisjoint (s : MemoryStorage) : Prop :=
  ∀ (ih : InfoHash) (fam : IpType), TablesDisjoint (swarmOf s ih fam)

/-- Precondition under which `put_peer_in_swarm` preserves disjointness:
the key is absent from the two tables other than the one addressed. -/
def putPrecond (sw : TorrentSwarm) (k : PeerIdKey) (pt : PeerType) : Prop :=
  match pt with
  | .Leecher => imContains sw.seeders k = false ∧ imContains sw.partialSeeds k = false
  | .Seeder => imContains sw.leechers k = false ∧ imContains sw.partialSeeds k = false
  | .PartialSeed => imContains sw.seeders k = false ∧ imContains sw.leechers k = false

/-- Precondition under which `update_or_put_peer_in_swarm` preserves
disjointness: when the operation falls through to an insert, the key is
absent from the tables the insert does not address. -/
def updatePrecond (sw : TorrentSwarm) (k : PeerIdKey) (pt : PeerType) : Prop :=
  match pt with
  | .Leecher =>
      imContains sw.leechers k = true
      ∨ (imContains sw.seeders k = false ∧ imContains sw.partialSeeds k = false)
  | _ =>
      imContains sw.seeders k = true
      ∨ imContains sw.partialSeeds k = true
      ∨ imContains sw.leechers k = false

/-! ## Announce task (src/worker/tasks/announce.rs) -/

/-- Models `AnnounceEvent` (the fifth source variant, `None`, is the
regular periodic announce; it is called `noneEvent` here). -/
inductive AnnounceEvent
  | started
  | stopped
  | completed
  | paused
  | noneEvent
deriving DecidableEq, Repr

/-- Models `AnnounceRequest` (fields as used by the announce task:
`info_hash`, `peer_id`, optional `key`, `port`, transfer counters,
`left`, `compact`, `no_peer_id`, optional `event`, optional `numwant`). -/
structure AnnounceRequest where
  infoHash : InfoHash
  peerId : List Nat
  key : Option (List Nat)
  port : Nat
  uploaded : Nat
  downloaded : Nat
  left : Nat
  compact : Bool
  noPeerId : Bool
  event : Option AnnounceEvent
  numwant : Option Nat
deriving DecidableEq, Repr

/-- The configuration fields the modelled flow reads (from `TSConfig`). -/
structure TSConfigM where
  infohashBlocklist : List InfoHash
  autoRegisterTorrent : Bool
  defaultNumwant : Nat
  maxNumwant : Nat
  announceInterval : Nat
  minAnnounceInterval : Nat
  peerIdleTime : Nat
deriving DecidableEq, Repr

/-- Sender IP address (octets of the v4 or v6 address). -/
inductive IpAddrM
  | v4 (octets : List Nat)
  | v6 (octets : List Nat)
deriving DecidableEq, Repr

/-- Family of the sender address (models `IpAddr::is_ipv4`). -/
def IpAddrM.ipType : IpAddrM → IpType
  | .v4 _ => .V4
  | .v6 _ => .V6

/-- Big-endian bytes of a 16-bit port (models `u16::to_be_bytes`). -/
def be2 (p : Nat) : List Nat := [p / 256 % 256, p % 256]

/-- Models the `Peer` construction from a request and the sender address
(src/models/peer.rs: address from ip and port, expiry `now + idle`). -/
def mkPeer (req : AnnounceRequest) (ip : IpAddrM) (now : Nat) (cfg : TSConfigM) : Peer :=
  { addr :=
      match ip with
      | .v4 o => .v4 (o ++ be2 req.port)
      | .v6 o => .v6 (o ++ be2 req.port),
    expireAt := now + cfg.peerIdleTime }

/-- Models `Peer::is_ipv4`. -/
def Peer.isIpv4 (p : Peer) : Bool := decide (p.ipType = .V4)

/-- Models `Peer::is_ipv6`. -/
def Peer.isIpv6 (p : Peer) : Bool := decide (p.ipType = .V6)

/-- The stored peer's compact address in the requested family, when it
has one (drives `PeersOutput::insert`). -/
def Peer.addrAsBytes (p : Peer) (fam : IpType) : Option (List Nat) :=
  match p.addr, fam with
  | .v4 b, .V4 => some b
  | .v6 b, .V6 => some b
  | _, _ => none

/-- Models `ResponsePeersExtractor`; `out` records one element per
successful `PeersOutput::insert` (each insert appends exactly one peer
record — compact bytes or one dictionary — to the response). -/
structure ResponsePeersExtractor where
  peerIdKey : PeerIdKey
  senderIpType : IpType
  numwant : Nat
  announceTime : Nat
  noPeerId : Bool
  peerCount : Nat
  out : List (PeerIdKey × Peer)
deriving DecidableEq, Repr

/-- Models `ResponsePeersExtractor::new`:
`numwant = min(req.numwant ?? default_numwant, max_numwant)`. -/
def mkResponsePeersExtractor (req : AnnounceRequest) (peerIdKey : PeerIdKey)
    (senderIpType : IpType) (announceTime : Nat) (cfg : TSConfigM) :
    ResponsePeersExtractor :=
  { peerIdKey := peerIdKey,
    senderIpType := senderIpType,
    numwant := min (req.numwant.getD cfg.defaultNumwant) cfg.maxNumwant,
    announceTime := announceTime,
    noPeerId := req.noPeerId,
    peerCount := 0,
    out := [] }

/-- Models `ResponsePeersExtractor::predicate`: family must match the
sender's, and the entry's key must differ from the caller's. -/
def ResponsePeersExtractor.keep (st : ResponsePeersExtractor) (p : Peer)
    (k : PeerIdKey) : Bool :=
  (match st.senderIpType with
   | .V4 => p.isIpv4
   | .V6 => p.isIpv6)
  && !(decide (k = st.peerIdKey))

/-- Models `PeersOutput::insert`: succeeds (appending one record) iff the
peer has an address in the sender's family. -/
def ResponsePeersExtractor.insertOut (st : ResponsePeersExtractor)
    (k : PeerIdKey) (p : Peer) : Bool × ResponsePeersExtractor :=
  match p.addrAsBytes st.senderIpType with
  | some _ => (true, { st with out := st.out ++ [(k, p)] })
  | none => (false, st)

/-- Models `ResponsePeersExtractor::extract` over a slice: stop with
`false` once `numwant` peers are gathered, skip entries rejected by the
predicate, count an entry only when the insert succeeded. -/
def ResponsePeersExtractor.extract :
    ResponsePeersExtractor → List (PeerIdKey × Peer) → Bool × ResponsePeersExtractor
  | st, [] => (true, st)
  | st, (k, p) :: rest =>
      if st.numwant ≤ st.peerCount then (false, st)
      else if !(st.keep p k) then ResponsePeersExtractor.extract st rest
      else
        let r := st.insertOut k p
        if r.1 then
          ResponsePeersExtractor.extract { r.2 with peerCount := r.2.peerCount + 1 } rest
        else
          ResponsePeersExtractor.extract r.2 rest

/-- Models `Processor::process` for the extractor: take the whole table
when it fits in the remaining budget, otherwise start at
`announce_time % total` and wrap around. -/
def ResponsePeersExtractor.processDict (st : ResponsePeersExtractor)
    (dict : List (PeerIdKey × Peer)) : Bool × ResponsePeersExtractor :=
  let total := dict.length
  if total ≤ st.numwant - st.peerCount then st.extract dict
  else
    let start := st.announceTime % total
    let r := st.extract (dict.drop start)
    if r.1 then r.2.extract (dict.take start) else r

/-- Runs the extractor over the sequence of tables
`extract_peers_from_swarm` feeds it, stopping when a `process` call
returns `false` (the `process_peers!` macro). -/
def ResponsePeersExtractor.runTables :
    ResponsePeersExtractor → List (List (PeerIdKey × Peer)) → ResponsePeersExtractor
  | st, [] => st
  | st, d :: ds =>
      let r := st.processDict d
      if r.1 then ResponsePeersExtractor.runTables r.2 ds else r.2

/-- Models `SwarmStats`. -/
structure SwarmStats where
  complete : Nat
  incomplete : Nat
deriving DecidableEq, Repr

/-- Models `TorrentStats` as produced by
`MemoryStorage::get_torrent_stats`. -/
structure TorrentStats where
  completed : Nat
  seeders : Nat
  incomplete : Nat
deriving DecidableEq, Repr

/-- Models `MemoryStorage::get_torrent_stats`: the completion counter of
the stored torrent (`NotFoundTorrent` when absent) plus swarm counts
(`complete = |seeders|`, `incomplete = |leechers| + |partial seeds|`;
zero when the swarm is absent). -/
def MemoryStorage.getTorrentStats (s : MemoryStorage) (ih : InfoHash)
    (fam : IpType) : Except TrackerErr TorrentStats :=
  match imLookup (s.getShard ih).torrents ih with
  | none => .error .notFoundTorrent
  | some t =>
      match (s.getShard ih).swarms.get ih fam with
      | some sw =>
          .ok { completed := t.completed, seeders := sw.seeders.length,
                incomplete := sw.leechers.length + sw.partialSeeds.length }
      | none => .ok { completed := t.completed, seeders := 0, incomplete := 0 }

/-- Models `MemoryStorage::extract_peers_from_swarm`: fails when the
swarm is absent; captures the stats under the same read lock; feeds
seeders, leechers, partial seeds to a leecher and only leechers to
anyone else. -/
def MemoryStorage.extractPeersFromSwarm (s : MemoryStorage) (ih : InfoHash)
    (pt : PeerType) (fam : IpType) (st0 : ResponsePeersExtractor) :
    Except TrackerErr (SwarmStats × ResponsePeersExtractor) :=
  match (s.getShard ih).swarms.get ih fam with
  | none => .error .notFoundTorrent
  | some sw =>
      let stats : SwarmStats :=
        { complete := sw.seeders.length,
          incomplete := sw.leechers.length + sw.partialSeeds.length }
      let tables :=
        match pt with
        | .Leecher => [sw.seeders, sw.leechers, sw.partialSeeds]
        | _ => [sw.leechers]
      .ok (stats, st0.runTables tables)

/-- Models the announce response assembly input (`into_output`): the
gathered peers go to `peers` or `peers6` by the sender's family, `None`
when empty. -/
def intoOutput (st : ResponsePeersExtractor) :
    Option (List (PeerIdKey × Peer)) × Option (List (PeerIdKey × Peer)) :=
  let peers := if st.out.isEmpty then none else some st.out
  match st.senderIpType with
  | .V4 => (peers, none)
  | .V6 => (none, peers)

/-- Models `AnnounceResponse` (peer lists abstracted as the extractor's
records). -/
structure AnnounceResponseM where
  peers : Option (List (PeerIdKey × Peer))
  peers6 : Option (List (PeerIdKey × Peer))
  seeders : Nat
  leechers : Nat
  interval : Nat
  minInterval : Nat
deriving DecidableEq, Repr

/-- Auto-registration step of the announce task: keep the store when the
torrent exists, insert it when auto-register is enabled, fail otherwise. -/
def registerStep (cfg : TSConfigM) (s : MemoryStorage) (ih : InfoHash) :
    Option MemoryStorage :=
  if s.hasTorrent ih then some s
  else if cfg.autoRegisterTorrent then some (s.insertTorrent ih none)
  else none

/-- Models `TaskExecutor::execute` for announce: blocklist check,
auto-registration, peer classification by `left == 0`, event dispatch,
then (except for `Stopped`) the read-only response phase (stats and peer
extraction). `now` stands for the announce timestamp
(`peer.last_announce_at`). -/
def announceExecute (cfg : TSConfigM) (req : AnnounceRequest) (senderIp : IpAddrM)
    (now : Nat) (s : MemoryStorage) :
    Except TrackerErr AnnounceResponseM × MemoryStorage :=
  if req.infoHash ∈ cfg.infohashBlocklist then (.error .blockedInfohash, s)
  else
    match registerStep cfg s req.infoHash with
    | none => (.error .notFoundTorrent, s)
    | some s1 =>
        let peer := mkPeer req senderIp now cfg
        let peerType : PeerType := if req.left = 0 then .Seeder else .Leecher
        let peerIdKey := mkPeerIdKey req.peerId req.key
        let step : Except TrackerErr Unit × MemoryStorage :=
          match req.event with
          | some .started => (.ok (), s1.putPeerInSwarm req.infoHash peerIdKey peer peerType)
          | some .stopped =>
              (.ok (), s1.removePeerFromSwarm req.infoHash peerIdKey peerType peer.ipType)
          | some .completed =>
              if peerType ≠ PeerType.Seeder then (.error .invalidAnnounceRequest, s1)
              else s1.promotePeerInSwarm req.infoHash peerIdKey peer
          | some .paused =>
              (.ok (), s1.updateOrPutPeerInSwarm req.infoHash peerIdKey peer .PartialSeed)
          | _ => (.ok (), s1.updateOrPutPeerInSwarm req.infoHash peerIdKey peer peerType)
        match step with
        | (.error e, s2) => (.error e, s2)
        | (.ok _, s2) =>
            if req.event = some AnnounceEvent.stopped then
              (.ok { peers := none, peers6 := none, seeders := 0, leechers := 0,
                     interval := cfg.announceInterval,
                     minInterval := cfg.minAnnounceInterval }, s2)
            else
              let fam := senderIp.ipType
              let peerTypeR : PeerType :=
                match req.event with
                | some .paused => .PartialSeed
                | _ => peerType
              let st0 := mkResponsePeersExtractor req peerIdKey fam now cfg
              match s2.getTorrentStats req.infoHash fam,
                    s2.extractPeersFromSwarm req.infoHash peerTypeR fam st0 with
              | .ok stats, .ok r =>
                  let o := intoOutput r.2
                  (.ok { peers := o.1, peers6 := o.2, seeders := stats.seeders,
                         leechers := stats.incomplete,
                         interval := cfg.announceInterval,
                         minInterval := cfg.minAnnounceInterval }, s2)
              | .error e, _ => (.error e, s2)
              | _, .error e => (.error e, s2)

/-! ## Full-scrape cache with spawned refresh tasks
(src/servers/cache/mod.rs, src/servers/cache/full_scrape.rs,
src/servers/http/handler.rs) -/

/-- Interleaving state of the full-scrape cache and its refresh tasks.
`hasPayload` models `FullScrapeCache.data.is_some()`, `expired` the value
of `CacheEntry::is_expired`, `refreshing` the `refreshing` flag;
`spawned` counts `refresh` invocations that have not yet run their
guard (the first write-lock section), `working` counts those past the
guard whose `FullScrape` worker task is still in flight. -/
structure FullScrapeSys where
  hasPayload : Bool
  expired : Bool
  refreshing : Bool
  spawned : Nat
  working : Nat
deriving DecidableEq, Repr

/-- `CacheEntry::default()`: no payload, no expiry (hence not expired),
not refreshing, no tasks. -/
def fsInit : FullScrapeSys :=
  { hasPayload := false, expired := false, refreshing := false,
    spawned := 0, working := 0 }

/-- Interleaving semantics of the code paths touching the cache. Each
constructor is one atomic critical section of the source:

* `readerSpawn` — the `/scrape` handler under the read lock sees an
  expired-or-missing payload with `refreshing` false and spawns
  `full_scrape::refresh` (`handler.rs` lines 145-155);
* `guardPassSome` — a spawned `refresh` runs its first write-lock
  section and takes the `Some(_) if is_expired && !is_refreshing` arm,
  setting `refreshing` (`full_scrape.rs` lines 38-50);
* `guardPassNone` — dito but taking the `None` arm, which sets
  `refreshing` without checking it;
* `guardFail` — the `_ => false` arm: the task exits;
* `finishRefresh` — a task past the guard completes its `FullScrape`
  work and runs `cache.set(...)` under the write lock, storing the
  payload with a fresh expiry and clearing `refreshing`;
* `tick` — the wall clock passes the stored expiry
  (`is_expired` becomes true). -/
inductive FSStep : FullScrapeSys → FullScrapeSys → Prop
  | readerSpawn (s : FullScrapeSys)
      (h : (s.expired = true ∨ s.hasPayload = false) ∧ s.refreshing = false) :
      FSStep s { s with spawned := s.spawned + 1 }
  | guardPassSome (s : FullScrapeSys) (n : Nat) (hn : s.spawned = n + 1)
      (h : s.hasPayload = true ∧ s.expired = true ∧ s.refreshing = false) :
      FSStep s { s with spawned := n, working := s.working + 1, refreshing := true }
  | guardPassNone (s : FullScrapeSys) (n : Nat) (hn : s.spawned = n + 1)
      (h : s.hasPayload = false) :
      FSStep s { s with spawned := n, working := s.working + 1, refreshing := true }
  | guardFail (s : FullScrapeSys) (n : Nat) (hn : s.spawned = n + 1)
      (h : ¬ ((s.hasPayload = true ∧ s.expired = true ∧ s.refreshing = false)
              ∨ s.hasPayload = false)) :
      FSStep s { s with spawned := n }
  | finishRefresh (s : FullScrapeSys) (n : Nat) (hn : s.working = n + 1) :
      FSStep s { s with hasPayload := true, expired := false, refreshing := false,
                        working := n }
  | tick (s : FullScrapeSys) : FSStep s { s with expired := true }

/-- States of the full-scrape subsystem reachable from process start. -/
def FSReachable (s : FullScrapeSys) : Prop :=
  Relation.ReflTransGen FSStep fsInit s

/-- A state with two `FullScrape` refresh tasks in flight at once. -/
def fsViolation : FullScrapeSys :=
  { hasPayload := false, expired := false, refreshing := true,
    spawned := 0, working := 2 }

/-! ## Connection pool (libs/pool/src/internals.rs) -/

/-- Permit-accounting state of the pool: `permits` models
`semaphore.available_permits()`, `connecting` the tasks holding a permit
between `acquire_owned` and the end of `manager.connect()`, `checkedOut`
the `Conn` values handed to callers, `idle` the queue length. -/
structure PoolState where
  permits : Nat
  connecting : Nat
  checkedOut : Nat
  idle : Nat
deriving DecidableEq, Repr

/-- `Shared::new` creates the semaphore with `max_size` permits; no
connections exist yet. -/
def poolInit (maxSize : Nat) : PoolState :=
  { permits := maxSize, connecting := 0, checkedOut := 0, idle := 0 }

/-- Permit-level semantics of the pool actor and its helper tasks; each
constructor is one code path of `libs/pool/src/internals.rs`:

* `acquirePermit` — `make_new_connection` acquires an owned permit
  (only possible while one is available);
* `connectOk` — `manager.connect()` succeeded: `Conn::new(conn, permit)`
  bundles the permit into the connection sent to the caller;
* `connectErr` — `connect()` failed: the permit is dropped (released);
* `checkoutIdle` — `GetConn` pops an idle connection and sends it out;
* `checkoutProbeFail` — the `is_valid` probe failed: the popped idle
  connection is dropped, releasing its permit;
* `putBackOk` — `PutConn` of an unbroken connection enqueues it idle;
* `dropConn` — a checked-out connection is finally dropped
  (`has_broken`, closed pool, or caller drop), releasing its permit;
* `reapIdle` — the reaper drops an idle connection past `idle_timeout`,
  releasing its permit. -/
inductive PoolStep : PoolState → PoolState → Prop
  | acquirePermit (p c o i : Nat) :
      PoolStep ⟨p + 1, c, o, i⟩ ⟨p, c + 1, o, i⟩
  | connectOk (p c o i : Nat) :
      PoolStep ⟨p, c + 1, o, i⟩ ⟨p, c, o + 1, i⟩
  | connectErr (p c o i : Nat) :
      PoolStep ⟨p, c + 1, o, i⟩ ⟨p + 1, c, o, i⟩
  | checkoutIdle (p c o i : Nat) :
      PoolStep ⟨p, c, o, i + 1⟩ ⟨p, c, o + 1, i⟩
  | checkoutProbeFail (p c o i : Nat) :
      PoolStep ⟨p, c, o, i + 1⟩ ⟨p + 1, c, o, i⟩
  | putBackOk (p c o i : Nat) :
      PoolStep ⟨p, c, o + 1, i⟩ ⟨p, c, o, i + 1⟩
  | dropConn (p c o i : Nat) :
      PoolStep ⟨p, c, o + 1, i⟩ ⟨p + 1, c, o, i⟩
  | reapIdle (p c o i : Nat) :
      PoolStep ⟨p, c, o, i + 1⟩ ⟨p + 1, c, o, i⟩

/-- Pool states reachable from a fresh pool of capacity `maxSize`. -/
def PoolReachable (maxSize : Nat) (s : PoolState) : Prop :=
  Relation.ReflTransGen PoolStep (poolInit maxSize) s

/-! ## Bencode map serialization (libs/utils/src/bencode.rs) -/

/-- Strict lexicographic order on raw byte strings: the order of
`BTreeMap<Bytes, Bytes>` keys (`Ord` on byte slices). -/
def bytesLt : List Nat → List Nat → Bool
  | [], [] => false
  | [], _ :: _ => true
  | _ :: _, [] => false
  | a :: as, b :: bs =>
      if a < b then true else if b < a then false else bytesLt as bs

/-- Models `BTreeMap::insert` on the ordered entry list: keep strictly
ascending key order, overwrite on an equal key. -/
def btInsert (k v : List Nat) : List (List Nat × List Nat) → List (List Nat × List Nat)
  | [] => [(k, v)]
  | (k', v') :: rest =>
      if bytesLt k k' then (k, v) :: (k', v') :: rest
      else if k = k' then (k, v) :: rest
      else (k', v') :: btInsert k v rest

/-- Decimal ASCII digits of a number (models the `Itoa` helper). -/
def itoa (n : Nat) : List Nat := (Nat.toDigits 10 n).map Char.toNat

/-- Models `Serializer::encode_bytes`: `<decimal length>:<bytes>`
(58 is `:`). -/
def encodeBytes (v : List Nat) : List Nat := itoa v.length ++ [58] ++ v

/-- Models `UnSortedMapSerializer::serialize_key` followed by
`serialize_value` for one presented entry: the key is reduced to its raw
bytes, and the pair is inserted into the `BTreeMap` unless the value
serialized to zero bytes. -/
def unsortedPutEntry (d : List (List Nat × List Nat)) (e : List Nat × List Nat) :
    List (List Nat × List Nat) :=
  if e.2 = [] then d else btInsert e.1 e.2 d

/-- The `BTreeMap` contents after presenting `entries` in order to the
unsorted (buffer-and-sort) map serializer. -/
def processEntries (entries : List (List Nat × List Nat)) :
    List (List Nat × List Nat) :=
  entries.foldl unsortedPutEntry []

/-- Models `UnSortedMapSerializer::flush`: `d`, then each buffered entry
as `encode_bytes(key)` followed by the raw value bytes, then `e`
(100 is `d`, 101 is `e`). -/
def unsortedFlush (d : List (List Nat × List Nat)) : List Nat :=
  100 :: d.foldr (fun e acc => encodeBytes e.1 ++ e.2 ++ acc) [] ++ [101]

/-- Models the `SortedMapSerializer` path (keys already presented in
order, byte-string keys): `serialize_entry` emits the encoded key and the
value bytes unless the value serialized to zero bytes; `end`/`close`
adds the final `e`. -/
def sortedMapOutput (entries : List (List Nat × List Nat)) : List Nat :=
  100 :: entries.foldl
      (fun acc e => if e.2 = [] then acc else acc ++ encodeBytes e.1 ++ e.2) []
    ++ [101]

/-- Models `Serializer::serialize_none`: nothing is written. -/
def serializeNoneBytes : List Nat := []

/-- Models `MapSerializer::new(ser, is_sorted)` followed by `end`:
the sorted sub-serializer when `is_sorted`, the buffering one otherwise. -/
def mapSerializeOutput (isSorted : Bool) (entries : List (List Nat × List Nat)) :
    List Nat :=
  if isSorted then sortedMapOutput entries
  else unsortedFlush (processEntries entries)

/-- Models `Bencode::bencode` for a map/struct value:
`serializer.is_sorted = (requires_sort == false)`. -/
def bencodeMapOutput (requiresSort : Bool)
    (entries : List (List Nat × List Nat)) : List Nat :=
  mapSerializeOutput (requiresSort == false) entries

/-! ## Lemmas about the IndexMap model -/

theorem imLookup_map_replace {K V : Type} [DecidableEq K] (m : IndexMapM K V)
    (k k' : K) (v : V) :
    imLookup (m.map (fun e => if e.1 = k then (k, v) else e)) k'
      = if k' = k then (if imContains m k then some v else none) else imLookup m k' := by
  induction m with
  | nil => simp [imLookup, imContains]
  | cons e rest ih =>
      obtain ⟨a, b⟩ := e
      by_cases h1 : a = k
      · subst h1
        by_cases h2 : k' = a
        · subst h2
          simp [imLookup, imContains]
        · have h2' : ¬ (a = k') := fun h => h2 h.symm
          simp [imLookup, imContains, h2, h2', ih]
      · by_cases h2 : k' = k
        · subst h2
          have h1' : ¬ (a = k') := h1
          simp [imLookup, imContains, h1', ih]
        · by_cases h3 : a = k'
          · subst h3
            simp [imLookup, imContains, h1, h2]
          · simp [imLookup, imContains, h1, h2, h3, ih]

theorem imLookup_append_single {K V : Type} [DecidableEq K] (m : IndexMapM K V)
    (k k' : K) (v : V) :
    imLookup (m ++ [(k, v)]) k'
      = match imLookup m k' with
        | some w => some w
        | none => if k' = k then some v else none := by
  induction m with
  | nil =>
      by_cases h : k' = k
      · subst h
        simp [imLookup]
      · have h' : ¬ (k = k') := fun hk => h hk.symm
        simp [imLookup, h, h']
  | cons e rest ih =>
      by_cases h : e.1 = k' <;> simp [imLookup, h, ih]

theorem imLookup_none_of_not_contains {K V : Type} [DecidableEq K]
    {m : IndexMapM K V} {k : K} (h : imContains m k = false) :
    imLookup m k = none := by
  unfold imContains at h
  cases hm : imLookup m k <;> simp [hm] at h ⊢

/-- Lookup after `IndexMap::insert`. -/
theorem imLookup_imInsert {K V : Type} [DecidableEq K] (m : IndexMapM K V)
    (k k' : K) (v : V) :
    imLookup (imInsert m k v) k' = if k' = k then some v else imLookup m k' := by
  unfold imInsert
  by_cases hc : imContains m k
  · rw [if_pos hc, imLookup_map_replace, if_pos hc]
  · rw [if_neg hc, imLookup_append_single]
    by_cases h2 : k' = k
    · subst h2
      rw [imLookup_none_of_not_contains (Bool.eq_false_iff.mpr hc)]
    · cases hm : imLookup m k' <;> simp [h2]

/-- Lookup after an in-place `get_mut` update. -/
theorem imLookup_imUpdate {K V : Type} [DecidableEq K] (m : IndexMapM K V)
    (k k' : K) (f : V → V) :
    imLookup (imUpdate m k f) k'
      = if k' = k then (imLookup m k).map f else imLookup m k' := by
  induction m with
  | nil => simp [imLookup, imUpdate]
  | cons e rest ih =>
      obtain ⟨a, b⟩ := e
      by_cases h1 : a = k
      · subst h1
        by_cases h2 : k' = a
        · subst h2
          simp [imUpdate, imLookup]
        · have h2' : ¬ (a = k') := fun h => h2 h.symm
          simp only [imUpdate, List.map_cons] at ih ⊢
          simp [imLookup, h2, h2', ih]
      · by_cases h2 : k' = k
        · subst h2
          have h1' : ¬ (a = k') := h1
          simp only [imUpdate, List.map_cons] at ih ⊢
          simp [imLookup, h1, h1', ih]
        · by_cases h3 : a = k'
          · subst h3
            simp only [imUpdate, List.map_cons] at ih ⊢
            simp [imLookup, h1, h2]
          · simp only [imUpdate, List.map_cons] at ih ⊢
            simp [imLookup, h1, h2, h3, ih]

/-- Lookup after `IndexMap::remove`. -/
theorem imLookup_imRemove {K V : Type} [DecidableEq K] (m : IndexMapM K V)
    (k k' : K) :
    imLookup (imRemove m k) k' = if k' = k then none else imLookup m k' := by
  induction m with
  | nil => simp [imLookup, imRemove]
  | cons e rest ih =>
      obtain ⟨a, b⟩ := e
      by_cases h1 : a = k
      · subst h1
        by_cases h2 : k' = a
        · subst h2
          simp only [imRemove, List.filter] at ih ⊢
          simp [imLookup, ih]
        · have h2' : ¬ (a = k') := fun h => h2 h.symm
          simp only [imRemove, List.filter] at ih ⊢
          simp [imLookup, h2, h2', ih]
      · by_cases h2 : k' = k
        · subst h2
          have h1' : ¬ (a = k') := h1
          simp only [imRemove, List.filter] at ih ⊢
          simp [imLookup, h1, h1', ih]
        · by_cases h3 : a = k'
          · subst h3
            simp only [imRemove, List.filter] at ih ⊢
            simp [imLookup, h1, h2, ih]
          · simp only [imRemove, List.filter] at ih ⊢
            simp [imLookup, h1, h2, h3, ih]

theorem imContains_imInsert {K V : Type} [DecidableEq K] (m : IndexMapM K V)
    (k k' : K) (v : V) :
    imContains (imInsert m k v) k' = (decide (k' = k) || imContains m k') := by
  unfold imContains
  rw [imLookup_imInsert]
  by_cases h : k' = k <;> simp [h]

theorem imContains_imUpdate {K V : Type} [DecidableEq K] (m : IndexMapM K V)
    (k k' : K) (f : V → V) :
    imContains (imUpdate m k f) k' = imContains m k' := by
  unfold imContains
  rw [imLookup_imUpdate]
  by_cases h : k' = k <;> simp [h]

theorem imContains_imRemove {K V : Type} [DecidableEq K] (m : IndexMapM K V)
    (k k' : K) :
    imContains (imRemove m k) k' = if k' = k then false else imContains m k' := by
  unfold imContains
  rw [imLookup_imRemove]
  by_cases h : k' = k <;> simp [h]

/-! ## Lemmas about shard routing -/

theorem length_setShard (s : MemoryStorage) (ih : InfoHash) (sh : Shard) :
    (s.setShard ih sh).shards.length = s.shards.length := by
  simp [MemoryStorage.setShard]

theorem getShardIndex_setShard (s : MemoryStorage) (ih : InfoHash) (sh : Shard)
    (d : List Nat) :
    (s.setShard ih sh).getShardIndex d = s.getShardIndex d := by
  simp [MemoryStorage.getShardIndex, MemoryStorage.setShard]

theorem getShardIndex_lt (s : MemoryStorage) (hs : 0 < s.shards.length)
    (d : List Nat) : s.getShardIndex d < s.shards.length :=
  Nat.mod_lt _ hs

/-- Reading back any shard after writing the shard routed to by `ih`. -/
theorem getShard_setShard (s : MemoryStorage) (hs : 0 < s.shards.length)
    (ih ih' : InfoHash) (sh : Shard) :
    (s.setShard ih sh).getShard ih'
      = if s.getShardIndex ih' = s.getShardIndex ih then sh else s.getShard ih' := by
  unfold MemoryStorage.getShard
  rw [getShardIndex_setShard]
  by_cases h : s.getShardIndex ih' = s.getShardIndex ih
  · rw [if_pos h, h]
    show ((s.shards.set _ sh).getD _ _) = sh
    unfold List.getD
    rw [List.get?_eq_getElem?, List.getElem?_set_self (getShardIndex_lt s hs ih)]
    rfl
  · rw [if_neg h]
    show ((s.shards.set _ sh).getD _ _) = s.shards.getD _ default
    unfold List.getD
    rw [List.get?_eq_getElem?, List.get?_eq_getElem?,
      List.getElem?_set_ne (fun he => h he.symm)]

theorem getShard_setShard_self (s : MemoryStorage) (hs : 0 < s.shards.length)
    (ih : InfoHash) (sh : Shard) :
    (s.setShard ih sh).getShard ih = sh := by
  rw [getShard_setShard s hs ih ih sh, if_pos rfl]

/-! ## Lemmas about the `SwarmsMap` -/

theorem SwarmsMap.get_set (m : SwarmsMap) (ih ih' : InfoHash)
    (fam fam' : IpType) (sw : TorrentSwarm) :
    (m.set ih fam sw).get ih' fam'
      = if ih' = ih ∧ fam' = fam then some sw else m.get ih' fam' := by
  cases fam <;> cases fam' <;>
    by_cases h : ih' = ih <;>
    simp [SwarmsMap.set, SwarmsMap.get, imLookup_imInsert, h]

theorem SwarmsMap.getD_set (m : SwarmsMap) (ih ih' : InfoHash)
    (fam fam' : IpType) (sw : TorrentSwarm) :
    (m.set ih fam sw).getD ih' fam'
      = if ih' = ih ∧ fam' = fam then sw else m.getD ih' fam' := by
  unfold SwarmsMap.getD
  rw [SwarmsMap.get_set]
  by_cases h : ih' = ih ∧ fam' = fam <;> simp [h]

/-! ## View lemmas for the store operations -/

theorem getShard_eq_of_index_eq (s : MemoryStorage) (ih ih' : InfoHash)
    (h : s.getShardIndex ih' = s.getShardIndex ih) :
    s.getShard ih' = s.getShard ih := by
  unfold MemoryStorage.getShard
  rw [h]

theorem completedOf_setShard (s : MemoryStorage) (hs : 0 < s.shards.length)
    (ih ih' : InfoHash) (sh : Shard) :
    completedOf (s.setShard ih sh) ih'
      = if s.getShardIndex ih' = s.getShardIndex ih
        then (imLookup sh.torrents ih').map (·.completed)
        else completedOf s ih' := by
  unfold completedOf
  rw [getShard_setShard s hs ih ih']
  by_cases hidx : s.getShardIndex ih' = s.getShardIndex ih
  · rw [if_pos hidx, if_pos hidx]
  · rw [if_neg hidx, if_neg hidx]

theorem swarmOf_setShard (s : MemoryStorage) (hs : 0 < s.shards.length)
    (ih ih' : InfoHash) (fam' : IpType) (sh : Shard) :
    swarmOf (s.setShard ih sh) ih' fam'
      = if s.getShardIndex ih' = s.getShardIndex ih
        then sh.swarms.getD ih' fam'
        else swarmOf s ih' fam' := by
  unfold swarmOf
  rw [getShard_setShard s hs ih ih']
  by_cases hidx : s.getShardIndex ih' = s.getShardIndex ih
  · rw [if_pos hidx, if_pos hidx]
  · rw [if_neg hidx, if_neg hidx]

theorem swarmOf_setSwarm (s : MemoryStorage) (hs : 0 < s.shards.length)
    (ih ih' : InfoHash) (fam fam' : IpType) (sw : TorrentSwarm) :
    swarmOf (s.setShard ih
        { s.getShard ih with swarms := (s.getShard ih).swarms.set ih fam sw }) ih' fam'
      = if ih' = ih ∧ fam' = fam then sw else swarmOf s ih' fam' := by
  rw [swarmOf_setShard s hs]
  by_cases hidx : s.getShardIndex ih' = s.getShardIndex ih
  · rw [if_pos hidx]
    show ((s.getShard ih).swarms.set ih fam sw).getD ih' fam' = _
    rw [SwarmsMap.getD_set]
    by_cases hc : ih' = ih ∧ fam' = fam
    · rw [if_pos hc, if_pos hc]
    · rw [if_neg hc, if_neg hc]
      unfold swarmOf
      rw [getShard_eq_of_index_eq s ih ih' hidx]
  · rw [if_neg hidx]
    have hne : ¬ (ih' = ih ∧ fam' = fam) := fun hc => hidx (by rw [hc.1])
    rw [if_neg hne]

theorem completedOf_setSwarm (s : MemoryStorage) (hs : 0 < s.shards.length)
    (ih ih' : InfoHash) (X : SwarmsMap) :
    completedOf (s.setShard ih { s.getShard ih with swarms := X }) ih'
      = completedOf s ih' := by
  rw [completedOf_setShard s hs]
  by_cases hidx : s.getShardIndex ih' = s.getShardIndex ih
  · rw [if_pos hidx]
    show (imLookup (s.getShard ih).torrents ih').map _ = _
    unfold completedOf
    rw [getShard_eq_of_index_eq s ih ih' hidx]
  · rw [if_neg hidx]

theorem putPeerInSwarm_def (s : MemoryStorage) (ih : InfoHash) (k : PeerIdKey)
    (p : Peer) (pt : PeerType) :
    s.putPeerInSwarm ih k p pt
      = s.setShard ih
          { s.getShard ih with
            swarms := (s.getShard ih).swarms.set ih p.ipType
              ((swarmOf s ih p.ipType).insertPeer k p pt) } := rfl

theorem updateOrPutPeerInSwarm_def (s : MemoryStorage) (ih : InfoHash)
    (k : PeerIdKey) (p : Peer) (pt : PeerType) :
    s.updateOrPutPeerInSwarm ih k p pt
      = s.setShard ih
          { s.getShard ih with
            swarms := (s.getShard ih).swarms.set ih p.ipType
              ((swarmOf s ih p.ipType).updateOrInsertPeer k p pt) } := rfl

theorem swarmOf_putPeerInSwarm (s : MemoryStorage) (hs : 0 < s.shards.length)
    (ih ih' : InfoHash) (k : PeerIdKey) (p : Peer) (pt : PeerType) (fam' : IpType) :
    swarmOf (s.putPeerInSwarm ih k p pt) ih' fam'
      = if ih' = ih ∧ fam' = p.ipType
        then (swarmOf s ih p.ipType).insertPeer k p pt
        else swarmOf s ih' fam' := by
  rw [putPeerInSwarm_def, swarmOf_setSwarm s hs]

theorem completedOf_putPeerInSwarm (s : MemoryStorage) (hs : 0 < s.shards.length)
    (ih ih' : InfoHash) (k : PeerIdKey) (p : Peer) (pt : PeerType) :
    completedOf (s.putPeerInSwarm ih k p pt) ih' = completedOf s ih' := by
  rw [putPeerInSwarm_def, completedOf_setSwarm s hs]

theorem swarmOf_updateOrPutPeerInSwarm (s : MemoryStorage) (hs : 0 < s.shards.length)
    (ih ih' : InfoHash) (k : PeerIdKey) (p : Peer) (pt : PeerType) (fam' : IpType) :
    swarmOf (s.updateOrPutPeerInSwarm ih k p pt) ih' fam'
      = if ih' = ih ∧ fam' = p.ipType
        then (swarmOf s ih p.ipType).updateOrInsertPeer k p pt
        else swarmOf s ih' fam' := by
  rw [updateOrPutPeerInSwarm_def, swarmOf_setSwarm s hs]

theorem completedOf_updateOrPutPeerInSwarm (s : MemoryStorage)
    (hs : 0 < s.shards.length) (ih ih' : InfoHash) (k : PeerIdKey) (p : Peer)
    (pt : PeerType) :
    completedOf (s.updateOrPutPeerInSwarm ih k p pt) ih' = completedOf s ih' := by
  rw [updateOrPutPeerInSwarm_def, completedOf_setSwarm s hs]

theorem removePeer_default (k : PeerIdKey) (pt : PeerType) :
    TorrentSwarm.removePeer default k pt = default := by
  cases pt <;> rfl

theorem swarmOf_removePeerFromSwarm (s : MemoryStorage) (hs : 0 < s.shards.length)
    (ih ih' : InfoHash) (k : PeerIdKey) (pt : PeerType) (fam fam' : IpType) :
    swarmOf (s.removePeerFromSwarm ih k pt fam) ih' fam'
      = if ih' = ih ∧ fam' = fam
        then (swarmOf s ih fam).removePeer k pt
        else swarmOf s ih' fam' := by
  unfold MemoryStorage.removePeerFromSwarm
  dsimp only
  cases hg : (s.getShard ih).swarms.get ih fam with
  | none =>
      have hsw : swarmOf s ih fam = default := by
        unfold swarmOf SwarmsMap.getD
        rw [hg]
        rfl
      by_cases hc : ih' = ih ∧ fam' = fam
      · rw [if_pos hc, hsw, removePeer_default, hc.1, hc.2, hsw]
      · rw [if_neg hc]
  | some sw =>
      have hsw : swarmOf s ih fam = sw := by
        unfold swarmOf SwarmsMap.getD
        rw [hg]
        rfl
      rw [swarmOf_setSwarm s hs, hsw]

theorem completedOf_removePeerFromSwarm (s : MemoryStorage)
    (hs : 0 < s.shards.length) (ih ih' : InfoHash) (k : PeerIdKey) (pt : PeerType)
    (fam : IpType) :
    completedOf (s.removePeerFromSwarm ih k pt fam) ih' = completedOf s ih' := by
  unfold MemoryStorage.removePeerFromSwarm
  dsimp only
  cases hg : (s.getShard ih).swarms.get ih fam with
  | none => rfl
  | some sw => rw [completedOf_setSwarm s hs]

theorem completedOf_insertTorrent (s : MemoryStorage) (hs : 0 < s.shards.length)
    (ih ih' : InfoHash) (t? : Option Torrent) :
    completedOf (s.insertTorrent ih t?) ih'
      = if ih' = ih then some (t?.getD default).completed else completedOf s ih' := by
  unfold MemoryStorage.insertTorrent
  rw [completedOf_setShard s hs]
  dsimp only
  by_cases hidx : s.getShardIndex ih' = s.getShardIndex ih
  · rw [if_pos hidx, imLookup_imInsert]
    by_cases hc : ih' = ih
    · rw [if_pos hc, if_pos hc]
      rfl
    · rw [if_neg hc, if_neg hc]
      unfold completedOf
      rw [getShard_eq_of_index_eq s ih ih' hidx]
  · rw [if_neg hidx]
    have hne : ¬ ih' = ih := fun hc => hidx (by rw [hc])
    rw [if_neg hne]

theorem swarmOf_insertTorrent (s : MemoryStorage) (hs : 0 < s.shards.length)
    (ih ih' : InfoHash) (fam' : IpType) (t? : Option Torrent) :
    swarmOf (s.insertTorrent ih t?) ih' fam' = swarmOf s ih' fam' := by
  unfold MemoryStorage.insertTorrent
  rw [swarmOf_setShard s hs]
  dsimp only
  by_cases hidx : s.getShardIndex ih' = s.getShardIndex ih
  · rw [if_pos hidx]
    unfold swarmOf
    rw [getShard_eq_of_index_eq s ih ih' hidx]
  · rw [if_neg hidx]

theorem hasTorrent_eq_completedOf_isSome (s : MemoryStorage) (ih : InfoHash) :
    s.hasTorrent ih = (completedOf s ih).isSome := by
  unfold MemoryStorage.hasTorrent imContains completedOf
  cases h : imLookup (s.getShard ih).torrents ih <;> simp [h]

/-! ## Lemmas about `promote_peer` and `promote_peer_in_swarm` -/

theorem promotePeer_fst (sw : TorrentSwarm) (k : PeerIdKey) (p : Peer) :
    (sw.promotePeer k p).1 = imContains sw.leechers k := by
  unfold TorrentSwarm.promotePeer imContains
  cases h : imLookup sw.leechers k <;> simp [h]

theorem promotePeer_snd_pos (sw : TorrentSwarm) (k : PeerIdKey) (p peer : Peer)
    (h : imLookup sw.leechers k = some peer) :
    (sw.promotePeer k p).2
      = { seeders := imInsert sw.seeders k (updatePeerFields peer p),
          leechers := imRemove sw.leechers k,
          partialSeeds := sw.partialSeeds } := by
  unfold TorrentSwarm.promotePeer
  rw [h]
  rfl

theorem promotePeer_snd_neg (sw : TorrentSwarm) (k : PeerIdKey) (p : Peer)
    (h : imLookup sw.leechers k = none) :
    (sw.promotePeer k p).2 = sw := by
  unfold TorrentSwarm.promotePeer
  rw [h]

theorem promotePeerInSwarm_snd (s : MemoryStorage) (hs : 0 < s.shards.length)
    (ih : InfoHash) (k : PeerIdKey) (p : Peer) :
    (s.promotePeerInSwarm ih k p).2
      = (let s1 := s.setShard ih
           { s.getShard ih with
             swarms := (s.getShard ih).swarms.set ih p.ipType
               ((swarmOf s ih p.ipType).promotePeer k p).2 }
         if imContains (swarmOf s ih p.ipType).leechers k
             ∧ (imLookup (s.getShard ih).torrents ih).isSome then
           s1.setShard ih
             { s1.getShard ih with
               torrents := imUpdate (s1.getShard ih).torrents ih Torrent.incrCompleted }
         else s1) := by
  unfold MemoryStorage.promotePeerInSwarm swarmOf
  dsimp only
  rw [promotePeer_fst]
  have hscrut : imLookup ((s.setShard ih
      { torrents := (s.getShard ih).torrents,
        swarms := (s.getShard ih).swarms.set ih p.ipType
          (((s.getShard ih).swarms.getD ih p.ipType).promotePeer k p).2 }).getShard
        ih).torrents ih
      = imLookup (s.getShard ih).torrents ih := by
    rw [getShard_setShard_self s hs ih]
  by_cases hb : imContains ((s.getShard ih).swarms.getD ih p.ipType).leechers k
  · rw [if_pos hb]
    rw [hscrut]
    cases hm : imLookup (s.getShard ih).torrents ih with
    | some t => simp [hb, hm]
    | none => simp [hb, hm]
  · have hb' : imContains ((s.getShard ih).swarms.getD ih p.ipType).leechers k = false :=
      Bool.eq_false_iff.mpr hb
    simp [hb']

theorem promotePeerInSwarm_fst (s : MemoryStorage) (hs : 0 < s.shards.length)
    (ih : InfoHash) (k : PeerIdKey) (p : Peer) :
    (s.promotePeerInSwarm ih k p).1
      = if imContains (swarmOf s ih p.ipType).leechers k ∧ completedOf s ih = none
        then Except.error TrackerErr.notFoundTorrent
        else Except.ok () := by
  unfold MemoryStorage.promotePeerInSwarm swarmOf completedOf
  dsimp only
  rw [promotePeer_fst]
  have hscrut : imLookup ((s.setShard ih
      { torrents := (s.getShard ih).torrents,
        swarms := (s.getShard ih).swarms.set ih p.ipType
          (((s.getShard ih).swarms.getD ih p.ipType).promotePeer k p).2 }).getShard
        ih).torrents ih
      = imLookup (s.getShard ih).torrents ih := by
    rw [getShard_setShard_self s hs ih]
  by_cases hb : imContains ((s.getShard ih).swarms.getD ih p.ipType).leechers k
  · rw [if_pos hb]
    rw [hscrut]
    cases hm : imLookup (s.getShard ih).torrents ih with
    | some t => simp [hb, hm]
    | none => simp [hb, hm]
  · have hb' : imContains ((s.getShard ih).swarms.getD ih p.ipType).leechers k = false :=
      Bool.eq_false_iff.mpr hb
    simp [hb']

theorem completedOf_promotePeerInSwarm (s : MemoryStorage)
    (hs : 0 < s.shards.length) (ih ih' : InfoHash) (k : PeerIdKey) (p : Peer) :
    completedOf (s.promotePeerInSwarm ih k p).2 ih'
      = if ih' = ih ∧ imContains (swarmOf s ih p.ipType).leechers k = true
        then (completedOf s ih').map (· + 1)
        else completedOf s ih' := by
  rw [promotePeerInSwarm_snd s hs]
  dsimp only
  have hs1 : 0 < (s.setShard ih
      { s.getShard ih with
        swarms := (s.getShard ih).swarms.set ih p.ipType
          ((swarmOf s ih p.ipType).promotePeer k p).2 }).shards.length := by
    rw [length_setShard]
    exact hs
  by_cases hb : imContains (swarmOf s ih p.ipType).leechers k
  · by_cases hm : (imLookup (s.getShard ih).torrents ih).isSome
    · rw [if_pos ⟨hb, hm⟩]
      rw [completedOf_setShard _ hs1 ih ih']
      dsimp only
      rw [getShardIndex_setShard, getShardIndex_setShard]
      rw [getShard_setShard_self s hs ih]
      dsimp only
      by_cases hidx : s.getShardIndex ih' = s.getShardIndex ih
      · rw [if_pos hidx, imLookup_imUpdate]
        by_cases hc : ih' = ih
        · rw [if_pos hc, if_pos ⟨hc, hb⟩]
          unfold completedOf
          rw [hc, getShard_eq_of_index_eq s ih ih rfl]
          cases ht : imLookup (s.getShard ih).torrents ih with
          | some t => rfl
          | none => rfl
        · rw [if_neg hc, if_neg (fun hcc => hc hcc.1)]
          unfold completedOf
          rw [getShard_eq_of_index_eq s ih ih' hidx]
      · rw [if_neg hidx]
        have hc : ¬ ih' = ih := fun hcc => hidx (by rw [hcc])
        rw [if_neg (fun hcc => hc hcc.1)]
        rw [completedOf_setSwarm s hs]
    · rw [if_neg (fun hcc => hm hcc.2)]
      rw [completedOf_setSwarm s hs]
      by_cases hc : ih' = ih
      · rw [if_pos ⟨hc, hb⟩]
        have hnone : completedOf s ih' = none := by
          unfold completedOf
          rw [hc]
          cases ht : imLookup (s.getShard ih).torrents ih with
          | some t => rw [ht] at hm; simp at hm
          | none => rfl
        rw [hnone]
        rfl
      · rw [if_neg (fun hcc => hc hcc.1)]
  · rw [if_neg (fun hcc => hb hcc.1)]
    rw [if_neg (fun hcc => by rw [hcc.2] at hb; exact hb rfl)]
    rw [completedOf_setSwarm s hs]

theorem swarmOf_promotePeerInSwarm (s : MemoryStorage) (hs : 0 < s.shards.length)
    (ih ih' : InfoHash) (k : PeerIdKey) (p : Peer) (fam' : IpType) :
    swarmOf (s.promotePeerInSwarm ih k p).2 ih' fam'
      = if ih' = ih ∧ fam' = p.ipType
        then ((swarmOf s ih p.ipType).promotePeer k p).2
        else swarmOf s ih' fam' := by
  rw [promotePeerInSwarm_snd s hs]
  dsimp only
  have hs1 : 0 < (s.setShard ih
      { s.getShard ih with
        swarms := (s.getShard ih).swarms.set ih p.ipType
          ((swarmOf s ih p.ipType).promotePeer k p).2 }).shards.length := by
    rw [length_setShard]
    exact hs
  by_cases hcond : imContains (swarmOf s ih p.ipType).leechers k
      ∧ (imLookup (s.getShard ih).torrents ih).isSome
  · rw [if_pos hcond]
    rw [swarmOf_setShard _ hs1 ih ih' fam']
    dsimp only
    rw [getShardIndex_setShard, getShardIndex_setShard]
    rw [getShard_setShard_self s hs ih]
    dsimp only
    by_cases hidx : s.getShardIndex ih' = s.getShardIndex ih
    · rw [if_pos hidx]
      rw [SwarmsMap.getD_set]
      by_cases hc : ih' = ih ∧ fam' = p.ipType
      · rw [if_pos hc, if_pos hc]
      · rw [if_neg hc, if_neg hc]
        unfold swarmOf
        rw [getShard_eq_of_index_eq s ih ih' hidx]
    · rw [if_neg hidx]
      have hc : ¬ (ih' = ih ∧ fam' = p.ipType) := fun hcc => hidx (by rw [hcc.1])
      rw [if_neg hc]
      rw [swarmOf_setSwarm s hs]
      rw [if_neg hc]
  · rw [if_neg hcond]
    rw [swarmOf_setSwarm s hs]

/-! ## Fresh stores -/

theorem swarmOf_mk (n : Nat) (ih : InfoHash) (fam : IpType) :
    swarmOf (mkMemoryStorage n) ih fam = default := by
  unfold swarmOf MemoryStorage.getShard mkMemoryStorage
  have hrep : ∀ i : Nat, (List.replicate n (default : Shard)).getD i default
      = default := by
    intro i
    unfold List.getD
    rw [List.get?_eq_getElem?, List.getElem?_replicate]
    by_cases h : i < n <;> simp [h]
  rw [hrep]
  cases fam <;> rfl

theorem completedOf_mk (n : Nat) (ih : InfoHash) :
    completedOf (mkMemoryStorage n) ih = none := by
  unfold completedOf MemoryStorage.getShard mkMemoryStorage
  have hrep : ∀ i : Nat, (List.replicate n (default : Shard)).getD i default
      = default := by
    intro i
    unfold List.getD
    rw [List.get?_eq_getElem?, List.getElem?_replicate]
    by_cases h : i < n <;> simp [h]
  rw [hrep]
  rfl

theorem tablesDisjoint_default : TablesDisjoint default := by
  intro k
  refine ⟨?_, ?_, ?_⟩ <;> simp [imContains, imLookup]

theorem storeDisjoint_mk (n : Nat) : StoreDisjoint (mkMemoryStorage n) := by
  intro ih fam
  rw [swarmOf_mk]
  exact tablesDisjoint_default

/-! ## Disjointness preservation inside one swarm -/

theorem tablesDisjoint_insertPeer (sw : TorrentSwarm) (k : PeerIdKey) (p : Peer)
    (pt : PeerType) (hd : TablesDisjoint sw) (hpre : putPrecond sw k pt) :
    TablesDisjoint (sw.insertPeer k p pt) := by
  intro k'
  have h := hd k'
  cases pt with
  | Leecher =>
      dsimp [TorrentSwarm.insertPeer]
      simp only [imContains_imInsert]
      by_cases hk : k' = k
      · subst hk
        simp [hpre.1, hpre.2]
      · simpa [imContains_imInsert, hk] using h
  | Seeder =>
      dsimp [TorrentSwarm.insertPeer]
      simp only [imContains_imInsert]
      by_cases hk : k' = k
      · subst hk
        simp [hpre.1, hpre.2]
      · simpa [imContains_imInsert, hk] using h
  | PartialSeed =>
      dsimp [TorrentSwarm.insertPeer]
      simp only [imContains_imInsert]
      by_cases hk : k' = k
      · subst hk
        simp [hpre.1, hpre.2]
      · simpa [imContains_imInsert, hk] using h

theorem tablesDisjoint_imUpdate_leechers (sw : TorrentSwarm) (k : PeerIdKey)
    (f : Peer → Peer) (hd : TablesDisjoint sw) :
    TablesDisjoint { sw with leechers := imUpdate sw.leechers k f } := by
  intro k'
  have h := hd k'
  simpa [imContains_imUpdate] using h

theorem tablesDisjoint_imUpdate_seeders (sw : TorrentSwarm) (k : PeerIdKey)
    (f : Peer → Peer) (hd : TablesDisjoint sw) :
    TablesDisjoint { sw with seeders := imUpdate sw.seeders k f } := by
  intro k'
  have h := hd k'
  simpa [imContains_imUpdate] using h

theorem tablesDisjoint_imUpdate_partialSeeds (sw : TorrentSwarm) (k : PeerIdKey)
    (f : Peer → Peer) (hd : TablesDisjoint sw) :
    TablesDisjoint { sw with partialSeeds := imUpdate sw.partialSeeds k f } := by
  intro k'
  have h := hd k'
  simpa [imContains_imUpdate] using h

theorem tablesDisjoint_updateOrInsertPeer (sw : TorrentSwarm) (k : PeerIdKey)
    (p : Peer) (pt : PeerType) (hd : TablesDisjoint sw)
    (hpre : updatePrecond sw k pt) :
    TablesDisjoint (sw.updateOrInsertPeer k p pt) := by
  cases pt with
  | Leecher =>
      dsimp [TorrentSwarm.updateOrInsertPeer]
      by_cases hl : imContains sw.leechers k
      · rw [if_pos hl]
        exact tablesDisjoint_imUpdate_leechers sw k _ hd
      · rw [if_neg hl]
        have hpre' : putPrecond sw k .Leecher := by
          cases hpre with
          | inl h => exact absurd h hl
          | inr h => exact h
        exact tablesDisjoint_insertPeer sw k p .Leecher hd hpre'
  | Seeder =>
      dsimp [TorrentSwarm.updateOrInsertPeer]
      by_cases hse : imContains sw.seeders k
      · rw [if_pos hse]
        exact tablesDisjoint_imUpdate_seeders sw k _ hd
      · rw [if_neg hse]
        by_cases hpa : imContains sw.partialSeeds k
        · rw [if_pos hpa]
          exact tablesDisjoint_imUpdate_partialSeeds sw k _ hd
        · rw [if_neg hpa]
          have hle : imContains sw.leechers k = false := by
            rcases hpre with h | h | h
            · exact absurd h hse
            · exact absurd h hpa
            · exact h
          exact tablesDisjoint_insertPeer sw k p .Seeder hd
            ⟨hle, Bool.eq_false_iff.mpr hpa⟩
  | PartialSeed =>
      dsimp [TorrentSwarm.updateOrInsertPeer]
      by_cases hse : imContains sw.seeders k
      · rw [if_pos hse]
        exact tablesDisjoint_imUpdate_seeders sw k _ hd
      · rw [if_neg hse]
        by_cases hpa : imContains sw.partialSeeds k
        · rw [if_pos hpa]
          exact tablesDisjoint_imUpdate_partialSeeds sw k _ hd
        · rw [if_neg hpa]
          have hle : imContains sw.leechers k = false := by
            rcases hpre with h | h | h
            · exact absurd h hse
            · exact absurd h hpa
            · exact h
          exact tablesDisjoint_insertPeer sw k p .PartialSeed hd
            ⟨Bool.eq_false_iff.mpr hse, hle⟩

theorem tablesDisjoint_promotePeer (sw : TorrentSwarm) (k : PeerIdKey) (p : Peer)
    (hd : TablesDisjoint sw) :
    TablesDisjoint (sw.promotePeer k p).2 := by
  cases hm : imLookup sw.leechers k with
  | none =>
      rw [promotePeer_snd_neg sw k p hm]
      exact hd
  | some peer =>
      rw [promotePeer_snd_pos sw k p peer hm]
      intro k'
      have h := hd k'
      have hleech : imContains sw.leechers k = true := by
        unfold imContains
        rw [hm]
        rfl
      by_cases hk : k' = k
      · subst hk
        have hpartial : imContains sw.partialSeeds k' = false := by
          by_cases hp : imContains sw.partialSeeds k'
          · exact absurd ⟨hleech, hp⟩ h.2.2
          · exact Bool.eq_false_iff.mpr hp
        simp [imContains_imInsert, imContains_imRemove, hpartial]
      · simpa [imContains_imInsert, imContains_imRemove, hk] using h

theorem tablesDisjoint_removeLeechers (sw : TorrentSwarm) (k : PeerIdKey)
    (hd : TablesDisjoint sw) :
    TablesDisjoint { sw with leechers := imRemove sw.leechers k } := by
  intro k'
  have h := hd k'
  simp only [imContains_imRemove]
  by_cases hk : k' = k
  · subst hk
    refine ⟨by simp, h.2.1, by simp⟩
  · simp only [if_neg hk]
    exact h

theorem tablesDisjoint_removeSeeders (sw : TorrentSwarm) (k : PeerIdKey)
    (hd : TablesDisjoint sw) :
    TablesDisjoint { sw with seeders := imRemove sw.seeders k } := by
  intro k'
  have h := hd k'
  simp only [imContains_imRemove]
  by_cases hk : k' = k
  · subst hk
    refine ⟨by simp, by simp, h.2.2⟩
  · simp only [if_neg hk]
    exact h

theorem tablesDisjoint_removePartialSeeds (sw : TorrentSwarm) (k : PeerIdKey)
    (hd : TablesDisjoint sw) :
    TablesDisjoint { sw with partialSeeds := imRemove sw.partialSeeds k } := by
  intro k'
  have h := hd k'
  simp only [imContains_imRemove]
  by_cases hk : k' = k
  · subst hk
    refine ⟨h.1, by simp, by simp⟩
  · simp only [if_neg hk]
    exact h

theorem tablesDisjoint_removePeer (sw : TorrentSwarm) (k : PeerIdKey)
    (pt : PeerType) (hd : TablesDisjoint sw) :
    TablesDisjoint (sw.removePeer k pt) := by
  cases pt with
  | Leecher => exact tablesDisjoint_removeLeechers sw k hd
  | Seeder =>
      dsimp [TorrentSwarm.removePeer]
      by_cases hse : imContains sw.seeders k
      · rw [if_pos hse]
        exact tablesDisjoint_removeSeeders sw k hd
      · rw [if_neg hse]
        exact tablesDisjoint_removePartialSeeds sw k hd
  | PartialSeed =>
      dsimp [TorrentSwarm.removePeer]
      by_cases hse : imContains sw.seeders k
      · rw [if_pos hse]
        exact tablesDisjoint_removeSeeders sw k hd
      · rw [if_neg hse]
        exact tablesDisjoint_removePartialSeeds sw k hd

/-! ## Claim C1 -/

/-- C1 (amended): on a store with a nonempty shard vector that holds a
torrent for `ih` with counter `c`, `promote_peer_in_swarm(ih, k, p)`
increments the torrent's completed counter by exactly 1 if and only if
`k` was present in the leechers table of the `(ih, family)` swarm, in
which case the peer has been moved from leechers to seeders when the
operation returns; if `k` was absent from leechers, the counter and the
swarm (all three tables) are unchanged. Amendment: the claim as stated
also quantifies over stores with no torrent at `ih` (reachable through
the raw storage API); there the code still moves a present leecher but
fails with `NotFoundTorrent` and increments nothing — see the
counterexample theorem. -/
theorem promote_completed_iff (s : MemoryStorage) (ih : InfoHash) (k : PeerIdKey)
    (p : Peer) (c : Nat) (hs : 0 < s.shards.length)
    (hc : completedOf s ih = some c) :
    (if imContains (swarmOf s ih p.ipType).leechers k then
       completedOf (s.promotePeerInSwarm ih k p).2 ih = some (c + 1)
       ∧ imContains (swarmOf (s.promotePeerInSwarm ih k p).2 ih p.ipType).leechers k = false
       ∧ imContains (swarmOf (s.promotePeerInSwarm ih k p).2 ih p.ipType).seeders k = true
       ∧ (s.promotePeerInSwarm ih k p).1 = Except.ok ()
     else
       completedOf (s.promotePeerInSwarm ih k p).2 ih = some c
       ∧ swarmOf (s.promotePeerInSwarm ih k p).2 ih p.ipType = swarmOf s ih p.ipType
       ∧ (s.promotePeerInSwarm ih k p).1 = Except.ok ()) := by
  by_cases hb : imContains (swarmOf s ih p.ipType).leechers k
  · rw [if_pos hb]
    obtain ⟨peer, hm⟩ := Option.isSome_iff_exists.mp hb
    refine ⟨?_, ?_, ?_, ?_⟩
    · rw [completedOf_promotePeerInSwarm s hs, if_pos ⟨rfl, hb⟩, hc]
      rfl
    · rw [swarmOf_promotePeerInSwarm s hs, if_pos ⟨rfl, rfl⟩,
        promotePeer_snd_pos _ _ _ peer hm]
      simp [imContains_imRemove]
    · rw [swarmOf_promotePeerInSwarm s hs, if_pos ⟨rfl, rfl⟩,
        promotePeer_snd_pos _ _ _ peer hm]
      simp [imContains_imInsert]
    · rw [promotePeerInSwarm_fst s hs,
        if_neg (fun hcc => by rw [hc] at hcc; exact Option.noConfusion hcc.2)]
  · rw [if_neg hb]
    have hb' : imContains (swarmOf s ih p.ipType).leechers k = false :=
      Bool.eq_false_iff.mpr hb
    have hm : imLookup (swarmOf s ih p.ipType).leechers k = none :=
      imLookup_none_of_not_contains hb'
    refine ⟨?_, ?_, ?_⟩
    · rw [completedOf_promotePeerInSwarm s hs, if_neg (fun hcc => hb hcc.2), hc]
    · rw [swarmOf_promotePeerInSwarm s hs, if_pos ⟨rfl, rfl⟩,
        promotePeer_snd_neg _ _ _ hm]
    · rw [promotePeerInSwarm_fst s hs, if_neg (fun hcc => hb hcc.1)]

/-- Witness for C1: a concrete store with `completed = 5` and one leecher;
promoting that leecher yields `completed = 6`. -/
theorem promote_completed_iff_witness :
    completedOf ((((mkMemoryStorage 1).insertTorrent (List.replicate 20 1)
          (some ⟨5⟩)).putPeerInSwarm (List.replicate 20 1) (List.replicate 20 2)
          ⟨PeerAddr.v4 [127, 0, 0, 1, 0, 80], 0⟩
          PeerType.Leecher).promotePeerInSwarm (List.replicate 20 1)
          (List.replicate 20 2) ⟨PeerAddr.v4 [127, 0, 0, 1, 0, 80], 0⟩).2
        (List.replicate 20 1)
      = some 6 := by
  have h := promote_completed_iff
    (((mkMemoryStorage 1).insertTorrent (List.replicate 20 1)
        (some ⟨5⟩)).putPeerInSwarm (List.replicate 20 1) (List.replicate 20 2)
        ⟨PeerAddr.v4 [127, 0, 0, 1, 0, 80], 0⟩ PeerType.Leecher)
    (List.replicate 20 1) (List.replicate 20 2)
    ⟨PeerAddr.v4 [127, 0, 0, 1, 0, 80], 0⟩ 5 (by decide) (by decide)
  rw [if_pos (by decide)] at h
  exact h.1

/-- C1 counterexample: with no torrent stored for `ih` but `k` present as
a leecher (a state the raw storage API reaches via `put_peer_in_swarm`),
`promote_peer_in_swarm` moves the peer to seeders yet increments no
counter and returns `NotFoundTorrent` — refuting the claim's unqualified
"increments iff the key was in leechers, and the increment happens before
the operation returns". -/
theorem promote_counterexample :
    imContains (swarmOf ((mkMemoryStorage 1).putPeerInSwarm (List.replicate 20 9)
        (List.replicate 20 8) ⟨PeerAddr.v4 [10, 0, 0, 1, 0, 80], 0⟩
        PeerType.Leecher) (List.replicate 20 9) IpType.V4).leechers
        (List.replicate 20 8) = true
    ∧ (((mkMemoryStorage 1).putPeerInSwarm (List.replicate 20 9)
        (List.replicate 20 8) ⟨PeerAddr.v4 [10, 0, 0, 1, 0, 80], 0⟩
        PeerType.Leecher).promotePeerInSwarm (List.replicate 20 9)
        (List.replicate 20 8) ⟨PeerAddr.v4 [10, 0, 0, 1, 0, 80], 0⟩).1
      = Except.error TrackerErr.notFoundTorrent
    ∧ completedOf (((mkMemoryStorage 1).putPeerInSwarm (List.replicate 20 9)
        (List.replicate 20 8) ⟨PeerAddr.v4 [10, 0, 0, 1, 0, 80], 0⟩
        PeerType.Leecher).promotePeerInSwarm (List.replicate 20 9)
        (List.replicate 20 8) ⟨PeerAddr.v4 [10, 0, 0, 1, 0, 80], 0⟩).2
        (List.replicate 20 9) = none
    ∧ imContains (swarmOf (((mkMemoryStorage 1).putPeerInSwarm (List.replicate 20 9)
        (List.replicate 20 8) ⟨PeerAddr.v4 [10, 0, 0, 1, 0, 80], 0⟩
        PeerType.Leecher).promotePeerInSwarm (List.replicate 20 9)
        (List.replicate 20 8) ⟨PeerAddr.v4 [10, 0, 0, 1, 0, 80], 0⟩).2
        (List.replicate 20 9) IpType.V4).seeders (List.replicate 20 8) = true := by
  decide

/-! ## Claim C2 -/

/-- C2 counterexample: from a fresh store, `put_peer_in_swarm(ih, k, p,
Leecher)` followed by `put_peer_in_swarm(ih, k, p, Seeder)` — a sequence
of the quantified operations — reaches a state where `k` is in both the
leechers and the seeders table of the same swarm, refuting pairwise
disjointness of the three tables in all reachable states. -/
theorem swarm_tables_disjoint_counterexample :
    StoreReachable 1 (((mkMemoryStorage 1).putPeerInSwarm (List.replicate 20 4)
        (List.replicate 20 5) ⟨PeerAddr.v4 [192, 168, 0, 1, 0, 81], 0⟩
        PeerType.Leecher).putPeerInSwarm (List.replicate 20 4)
        (List.replicate 20 5) ⟨PeerAddr.v4 [192, 168, 0, 1, 0, 81], 0⟩
        PeerType.Seeder)
    ∧ imContains (swarmOf (((mkMemoryStorage 1).putPeerInSwarm (List.replicate 20 4)
        (List.replicate 20 5) ⟨PeerAddr.v4 [192, 168, 0, 1, 0, 81], 0⟩
        PeerType.Leecher).putPeerInSwarm (List.replicate 20 4)
        (List.replicate 20 5) ⟨PeerAddr.v4 [192, 168, 0, 1, 0, 81], 0⟩
        PeerType.Seeder) (List.replicate 20 4) IpType.V4).leechers
        (List.replicate 20 5) = true
    ∧ imContains (swarmOf (((mkMemoryStorage 1).putPeerInSwarm (List.replicate 20 4)
        (List.replicate 20 5) ⟨PeerAddr.v4 [192, 168, 0, 1, 0, 81], 0⟩
        PeerType.Leecher).putPeerInSwarm (List.replicate 20 4)
        (List.replicate 20 5) ⟨PeerAddr.v4 [192, 168, 0, 1, 0, 81], 0⟩
        PeerType.Seeder) (List.replicate 20 4) IpType.V4).seeders
        (List.replicate 20 5) = true := by
  refine ⟨?_, by decide, by decide⟩
  exact Relation.ReflTransGen.tail
    (Relation.ReflTransGen.tail Relation.ReflTransGen.refl
      (StoreStep.put _ _ _ _ _))
    (StoreStep.put _ _ _ _ _)

/-- C2 (amended): on a store whose swarms all have pairwise disjoint
tables, `promote_peer_in_swarm` and `remove_peer_from_swarm` always
preserve the disjointness invariant, and `put_peer_in_swarm` /
`update_or_put_peer_in_swarm` preserve it under the stated precondition
(the key must not sit in a table the operation would not touch — exactly
the condition the counterexample violates). -/
theorem storeDisjoint_preserved (s : MemoryStorage) (hs : 0 < s.shards.length)
    (hd : StoreDisjoint s) (ih : InfoHash) (k : PeerIdKey) (p : Peer)
    (pt : PeerType) (fam : IpType) :
    StoreDisjoint (s.promotePeerInSwarm ih k p).2
    ∧ StoreDisjoint (s.removePeerFromSwarm ih k pt fam)
    ∧ (putPrecond (swarmOf s ih p.ipType) k pt →
        StoreDisjoint (s.putPeerInSwarm ih k p pt))
    ∧ (updatePrecond (swarmOf s ih p.ipType) k pt →
        StoreDisjoint (s.updateOrPutPeerInSwarm ih k p pt)) := by
  refine ⟨?_, ?_, ?_, ?_⟩
  · intro ih' fam'
    rw [swarmOf_promotePeerInSwarm s hs]
    by_cases hc : ih' = ih ∧ fam' = p.ipType
    · rw [if_pos hc]
      exact tablesDisjoint_promotePeer _ k p (hd ih p.ipType)
    · rw [if_neg hc]
      exact hd ih' fam'
  · intro ih' fam'
    rw [swarmOf_removePeerFromSwarm s hs]
    by_cases hc : ih' = ih ∧ fam' = fam
    · rw [if_pos hc]
      exact tablesDisjoint_removePeer _ k pt (hd ih fam)
    · rw [if_neg hc]
      exact hd ih' fam'
  · intro hpre ih' fam'
    rw [swarmOf_putPeerInSwarm s hs]
    by_cases hc : ih' = ih ∧ fam' = p.ipType
    · rw [if_pos hc]
      exact tablesDisjoint_insertPeer _ k p pt (hd ih p.ipType) hpre
    · rw [if_neg hc]
      exact hd ih' fam'
  · intro hpre ih' fam'
    rw [swarmOf_updateOrPutPeerInSwarm s hs]
    by_cases hc : ih' = ih ∧ fam' = p.ipType
    · rw [if_pos hc]
      exact tablesDisjoint_updateOrInsertPeer _ k p pt (hd ih p.ipType) hpre
    · rw [if_neg hc]
      exact hd ih' fam'

/-- Witness for C2: the preservation theorem applied to a fresh
single-shard store and a concrete promote call. -/
theorem storeDisjoint_preserved_witness :
    StoreDisjoint ((mkMemoryStorage 1).promotePeerInSwarm (List.replicate 20 6)
      (List.replicate 20 7) ⟨PeerAddr.v4 [127, 0, 0, 2, 0, 80], 0⟩).2 :=
  (storeDisjoint_preserved (mkMemoryStorage 1) (by decide) (storeDisjoint_mk 1)
    (List.replicate 20 6) (List.replicate 20 7)
    ⟨PeerAddr.v4 [127, 0, 0, 2, 0, 80], 0⟩ PeerType.Leecher IpType.V4).1

/-! ## Claim C7 -/

/-- C7: `MemoryStorage::insert_torrent` is an unconditional
`IndexMap::insert` — evaluating it at a store that already holds a
torrent with `completed = 5` and inserting again with `None` replaces the
stored torrent with the default, resetting the counter to 0. This
contradicts the claimed idempotent create-if-absent semantics (the
spec-mandated behavior, which the redis backend implements with
`HSETNX`). -/
theorem insertTorrent_replaces :
    completedOf ((mkMemoryStorage 1).insertTorrent (List.replicate 20 3)
        (some ⟨5⟩)) (List.replicate 20 3) = some 5
    ∧ completedOf (((mkMemoryStorage 1).insertTorrent (List.replicate 20 3)
        (some ⟨5⟩)).insertTorrent (List.replicate 20 3) none)
        (List.replicate 20 3) = some 0 := by
  decide

/-! ## Extractor invariants (claims C4 and C5) -/

theorem extract_spec (l : List (PeerIdKey × Peer)) (st : ResponsePeersExtractor) :
    ((st.extract l).2.numwant = st.numwant)
    ∧ ((st.extract l).2.peerIdKey = st.peerIdKey)
    ∧ (st.peerCount ≤ st.numwant → st.out.length = st.peerCount →
        (st.extract l).2.peerCount ≤ st.numwant
        ∧ (st.extract l).2.out.length = (st.extract l).2.peerCount)
    ∧ (∀ e, e ∈ (st.extract l).2.out → e ∈ st.out ∨ ¬ (e.1 = st.peerIdKey)) := by
  induction l generalizing st with
  | nil =>
      exact ⟨rfl, rfl, fun h1 h2 => ⟨h1, h2⟩, fun e he => Or.inl he⟩
  | cons hd tl ih =>
      obtain ⟨k, p⟩ := hd
      by_cases hguard : st.numwant ≤ st.peerCount
      · have hstep : st.extract ((k, p) :: tl) = (false, st) := by
          simp only [ResponsePeersExtractor.extract, if_pos hguard]
        rw [hstep]
        exact ⟨rfl, rfl, fun h1 h2 => ⟨h1, h2⟩, fun e he => Or.inl he⟩
      · by_cases hkeep : st.keep p k
        · cases haddr : p.addrAsBytes st.senderIpType with
          | some a =>
              have hstep : st.extract ((k, p) :: tl)
                  = ResponsePeersExtractor.extract
                      { st with out := st.out ++ [(k, p)],
                                peerCount := st.peerCount + 1 } tl := by
                simp only [ResponsePeersExtractor.extract, if_neg hguard, hkeep,
                  Bool.not_true, ResponsePeersExtractor.insertOut, haddr]
                rfl
              rw [hstep]
              obtain ⟨hn, hk, hcount, hmem⟩ :=
                ih { st with out := st.out ++ [(k, p)], peerCount := st.peerCount + 1 }
              refine ⟨hn, hk, ?_, ?_⟩
              · intro h1 h2
                exact hcount (Nat.lt_of_not_le hguard) (by simp [h2])
              · intro e he
                rcases hmem e he with hin | hne
                · rcases List.mem_append.mp hin with hin' | hin'
                  · exact Or.inl hin'
                  · have : e = (k, p) := by simpa using hin'
                    subst this
                    have hkeep2 := hkeep
                    unfold ResponsePeersExtractor.keep at hkeep2
                    have hne' := (Bool.and_eq_true_iff.mp hkeep2).2
                    rw [Bool.not_eq_true'] at hne'
                    exact Or.inr (of_decide_eq_false hne')
                · exact Or.inr hne
          | none =>
              have hstep : st.extract ((k, p) :: tl)
                  = ResponsePeersExtractor.extract st tl := by
                simp only [ResponsePeersExtractor.extract, if_neg hguard, hkeep,
                  Bool.not_true, ResponsePeersExtractor.insertOut, haddr]
                rfl
              rw [hstep]
              exact ih st
        · have hkeep' : st.keep p k = false := Bool.eq_false_iff.mpr hkeep
          have hstep : st.extract ((k, p) :: tl)
              = ResponsePeersExtractor.extract st tl := by
            simp only [ResponsePeersExtractor.extract, if_neg hguard, hkeep',
              Bool.not_false]
            rfl
          rw [hstep]
          exact ih st

theorem processDict_spec (dict : List (PeerIdKey × Peer))
    (st : ResponsePeersExtractor) :
    ((st.processDict dict).2.numwant = st.numwant)
    ∧ ((st.processDict dict).2.peerIdKey = st.peerIdKey)
    ∧ (st.peerCount ≤ st.numwant → st.out.length = st.peerCount →
        (st.processDict dict).2.peerCount ≤ st.numwant
        ∧ (st.processDict dict).2.out.length = (st.processDict dict).2.peerCount)
    ∧ (∀ e, e ∈ (st.processDict dict).2.out → e ∈ st.out ∨ ¬ (e.1 = st.peerIdKey)) := by
  unfold ResponsePeersExtractor.processDict
  dsimp only
  by_cases hfit : dict.length ≤ st.numwant - st.peerCount
  · simp only [if_pos hfit]
    exact extract_spec dict st
  · simp only [if_neg hfit]
    cases hr : (st.extract (dict.drop (st.announceTime % dict.length))).1 with
    | true =>
        rw [if_pos rfl]
        obtain ⟨hn1, hk1, hcount1, hmem1⟩ :=
          extract_spec (dict.drop (st.announceTime % dict.length)) st
        obtain ⟨hn2, hk2, hcount2, hmem2⟩ :=
          extract_spec (dict.take (st.announceTime % dict.length))
            (st.extract (dict.drop (st.announceTime % dict.length))).2
        refine ⟨by rw [hn2, hn1], by rw [hk2, hk1], ?_, ?_⟩
        · intro h1 h2
          obtain ⟨hc1, ho1⟩ := hcount1 h1 h2
          have := hcount2 (by rw [hn1]; exact hc1) ho1
          rw [hn1] at this
          exact this
        · intro e he
          rcases hmem2 e he with hin | hne
          · rcases hmem1 e hin with hin' | hne'
            · exact Or.inl hin'
            · exact Or.inr hne'
          · rw [hk1] at hne
            exact Or.inr hne
    | false =>
        rw [if_neg Bool.false_ne_true]
        exact extract_spec (dict.drop (st.announceTime % dict.length)) st

theorem runTables_spec (tables : List (List (PeerIdKey × Peer)))
    (st : ResponsePeersExtractor) :
    ((st.runTables tables).numwant = st.numwant)
    ∧ ((st.runTables tables).peerIdKey = st.peerIdKey)
    ∧ (st.peerCount ≤ st.numwant → st.out.length = st.peerCount →
        (st.runTables tables).peerCount ≤ st.numwant
        ∧ (st.runTables tables).out.length = (st.runTables tables).peerCount)
    ∧ (∀ e, e ∈ (st.runTables tables).out → e ∈ st.out ∨ ¬ (e.1 = st.peerIdKey)) := by
  induction tables generalizing st with
  | nil =>
      exact ⟨rfl, rfl, fun h1 h2 => ⟨h1, h2⟩, fun e he => Or.inl he⟩
  | cons d ds ih =>
      obtain ⟨hn1, hk1, hcount1, hmem1⟩ := processDict_spec d st
      cases hr : (st.processDict d).1 with
      | true =>
          have hstep : st.runTables (d :: ds)
              = ResponsePeersExtractor.runTables (st.processDict d).2 ds := by
            simp only [ResponsePeersExtractor.runTables, hr, if_true]
          rw [hstep]
          obtain ⟨hn2, hk2, hcount2, hmem2⟩ := ih (st.processDict d).2
          refine ⟨by rw [hn2, hn1], by rw [hk2, hk1], ?_, ?_⟩
          · intro h1 h2
            obtain ⟨hc1, ho1⟩ := hcount1 h1 h2
            have := hcount2 (by rw [hn1]; exact hc1) ho1
            rw [hn1] at this
            exact this
          · intro e he
            rcases hmem2 e he with hin | hne
            · rcases hmem1 e hin with hin' | hne'
              · exact Or.inl hin'
              · exact Or.inr hne'
            · rw [hk1] at hne
              exact Or.inr hne
      | false =>
          have hstep : st.runTables (d :: ds) = (st.processDict d).2 := by
            simp only [ResponsePeersExtractor.runTables, hr]
            rw [if_neg Bool.false_ne_true]
          rw [hstep]
          exact ⟨hn1, hk1, hcount1, hmem1⟩

/-! ## Claim C4 -/

/-- C4: for every announce request and any sequence of peer tables the
store feeds to the extractor (for every swarm contents), the number of
peers placed in the response is at most
`min(numwant ?? default_numwant, max_numwant)`. -/
theorem announce_numwant_cap (req : AnnounceRequest) (key : PeerIdKey)
    (fam : IpType) (t : Nat) (cfg : TSConfigM)
    (tables : List (List (PeerIdKey × Peer))) :
    ((mkResponsePeersExtractor req key fam t cfg).runTables tables).out.length
      ≤ min (req.numwant.getD cfg.defaultNumwant) cfg.maxNumwant := by
  obtain ⟨hn, _, hcount, _⟩ :=
    runTables_spec tables (mkResponsePeersExtractor req key fam t cfg)
  obtain ⟨hc, ho⟩ := hcount (Nat.zero_le _) rfl
  rw [ho]
  exact hc

/-! ## Claim C5 -/

/-- C5: no peer record placed in the response carries the caller's own
`PeerIdKey` — the predicate skips entries whose key equals the caller's,
for every request and every swarm contents. -/
theorem announce_excludes_caller (req : AnnounceRequest) (key : PeerIdKey)
    (fam : IpType) (t : Nat) (cfg : TSConfigM)
    (tables : List (List (PeerIdKey × Peer))) :
    ((mkResponsePeersExtractor req key fam t cfg).runTables tables).out.all
      (fun e => !(decide (e.1 = key))) = true := by
  rw [List.all_eq_true]
  intro e he
  obtain ⟨_, _, _, hmem⟩ :=
    runTables_spec tables (mkResponsePeersExtractor req key fam t cfg)
  rcases hmem e he with hin | hne
  · exact absurd hin (List.not_mem_nil e)
  · simpa using hne

/-! ## Claim C8 -/

theorem poolReachable_sum (m : Nat) (s : PoolState) (h : PoolReachable m s) :
    s.permits + s.connecting + s.checkedOut + s.idle = m := by
  induction h with
  | refl => simp [poolInit]
  | tail hab hstep ih =>
      cases hstep <;> dsimp at ih ⊢ <;> omega

/-- C8: in every pool state reachable from a fresh pool — where the
semaphore starts with `max_size` permits, a connection is created only by
converting an available permit (`acquire_owned` then `Conn::new`), and
the permit is released exactly when the connection is finally dropped —
the number of live connections (checked out plus idle) never exceeds
`max_size`. -/
theorem pool_live_le_max (m : Nat) (s : PoolState) (h : PoolReachable m s) :
    s.checkedOut + s.idle ≤ m := by
  have hsum := poolReachable_sum m s h
  omega

/-- Witness for C8: a pool of capacity 2 after one permit acquisition and
one successful connect holds one live connection, within the bound. -/
theorem pool_live_le_max_witness :
    (PoolState.mk 1 0 1 0).checkedOut + (PoolState.mk 1 0 1 0).idle ≤ 2 :=
  pool_live_le_max 2 ⟨1, 0, 1, 0⟩
    (Relation.ReflTransGen.tail
      (Relation.ReflTransGen.tail Relation.ReflTransGen.refl
        (PoolStep.acquirePermit 1 0 0 0))
      (PoolStep.connectOk 1 0 0 0))

/-! ## Claim C3 -/

/-- C3: the single-flight claim fails on the code. On a cold cache (no
payload, not refreshing), two `/scrape` readers may each observe
`refreshing == false` under the read lock and spawn
`full_scrape::refresh`; both spawned tasks then pass the guard because
its `None` arm sets `refreshing` without checking it, so a state with two
`FullScrape` refresh tasks in flight is reachable. -/
theorem fullScrape_two_refreshes_in_flight :
    FSReachable fsViolation ∧ fsViolation.working = 2 := by
  refine ⟨?_, rfl⟩
  exact Relation.ReflTransGen.tail
    (Relation.ReflTransGen.tail
      (Relation.ReflTransGen.tail
        (Relation.ReflTransGen.tail Relation.ReflTransGen.refl
          (FSStep.readerSpawn ⟨false, false, false, 0, 0⟩ ⟨Or.inr rfl, rfl⟩))
        (FSStep.readerSpawn ⟨false, false, false, 1, 0⟩ ⟨Or.inr rfl, rfl⟩))
      (FSStep.guardPassNone ⟨false, false, false, 2, 0⟩ 1 rfl rfl))
    (FSStep.guardPassNone ⟨false, false, true, 1, 1⟩ 0 rfl rfl)

/-! ## Bencode order lemmas (claims C9 and C10) -/

theorem bytesLt_trans (a : List Nat) :
    ∀ b c, bytesLt a b = true → bytesLt b c = true → bytesLt a c = true := by
  induction a with
  | nil =>
      intro b c hab hbc
      cases b with
      | nil => simp [bytesLt] at hab
      | cons y bs =>
          cases c with
          | nil => simp [bytesLt] at hbc
          | cons z cs => simp [bytesLt]
  | cons x as ih =>
      intro b c hab hbc
      cases b with
      | nil => simp [bytesLt] at hab
      | cons y bs =>
          cases c with
          | nil => simp [bytesLt] at hbc
          | cons z cs =>
              simp only [bytesLt] at hab hbc ⊢
              by_cases hxy : x < y
              · by_cases hyz : y < z
                · have hxz : x < z := Nat.lt_trans hxy hyz
                  simp [hxz]
                · by_cases hzy : z < y
                  · simp [hyz, hzy] at hbc
                  · have hyz' : y = z :=
                      Nat.le_antisymm (Nat.le_of_not_lt hzy) (Nat.le_of_not_lt hyz)
                    subst hyz'
                    simp [hxy]
              · by_cases hyx : y < x
                · simp [hxy, hyx] at hab
                · have hxy' : x = y :=
                    Nat.le_antisymm (Nat.le_of_not_lt hyx) (Nat.le_of_not_lt hxy)
                  subst hxy'
                  simp only [Nat.lt_irrefl, if_false] at hab
                  by_cases hxz : x < z
                  · simp [hxz]
                  · by_cases hzx : z < x
                    · simp [hxz, hzx] at hbc
                    · have hxz' : x = z :=
                        Nat.le_antisymm (Nat.le_of_not_lt hzx) (Nat.le_of_not_lt hxz)
                      subst hxz'
                      simp only [Nat.lt_irrefl, if_false] at hbc ⊢
                      exact ih bs cs hab hbc

theorem bytesLt_total (a : List Nat) :
    ∀ b, bytesLt a b = false → a ≠ b → bytesLt b a = true := by
  induction a with
  | nil =>
      intro b hab hne
      cases b with
      | nil => exact absurd rfl hne
      | cons y bs => simp [bytesLt] at hab
  | cons x as ih =>
      intro b hab hne
      cases b with
      | nil => simp [bytesLt]
      | cons y bs =>
          simp only [bytesLt] at hab ⊢
          by_cases hxy : x < y
          · simp [hxy] at hab
          · by_cases hyx : y < x
            · simp [hyx]
            · have hxy' : x = y :=
                Nat.le_antisymm (Nat.le_of_not_lt hyx) (Nat.le_of_not_lt hxy)

              subst hxy'
              simp only [Nat.lt_irrefl, if_false] at hab ⊢
              have hne' : as ≠ bs := fun h => hne (by rw [h])
              exact ih bs hab hne'

/-- Keys of the ordered dict: strictly ascending in byte order. -/
def SortedKeys (d : List (List Nat × List Nat)) : Prop :=
  List.Pairwise (fun e1 e2 => bytesLt e1.1 e2.1 = true) d

theorem btInsert_mem (k v : List Nat) (d : List (List Nat × List Nat)) :
    ∀ e, e ∈ btInsert k v d → e.1 = k ∨ e ∈ d := by
  induction d with
  | nil =>
      intro e he
      simp [btInsert] at he
      subst he
      exact Or.inl rfl
  | cons hd tl ih =>
      obtain ⟨k', v'⟩ := hd
      intro e he
      simp only [btInsert] at he
      by_cases h1 : bytesLt k k' = true
      · rw [if_pos h1] at he
        rcases List.mem_cons.mp he with he | he
        · subst he
          exact Or.inl rfl
        · rcases List.mem_cons.mp he with he | he
          · exact Or.inr (by simp [he])
          · exact Or.inr (List.mem_cons_of_mem _ he)
      · rw [if_neg h1] at he
        by_cases h2 : k = k'
        · rw [if_pos h2] at he
          rcases List.mem_cons.mp he with he | he
          · subst he
            exact Or.inl rfl
          · exact Or.inr (List.mem_cons_of_mem _ he)
        · rw [if_neg h2] at he
          rcases List.mem_cons.mp he with he | he
          · exact Or.inr (by simp [he])
          · rcases ih e he with h | h
            · exact Or.inl h
            · exact Or.inr (List.mem_cons_of_mem _ h)

theorem btInsert_sorted (k v : List Nat) (d : List (List Nat × List Nat))
    (hd : SortedKeys d) : SortedKeys (btInsert k v d) := by
  induction d with
  | nil =>
      simp [btInsert, SortedKeys]
  | cons e tl ih =>
      obtain ⟨k', v'⟩ := e
      rcases List.pairwise_cons.mp hd with ⟨hhead, htl⟩
      simp only [btInsert]
      by_cases h1 : bytesLt k k' = true
      · rw [if_pos h1]
        refine List.pairwise_cons.mpr ⟨?_, hd⟩
        intro e he
        rcases List.mem_cons.mp he with he | he
        · subst he
          exact h1
        · exact bytesLt_trans k k' e.1 h1 (hhead e he)
      · rw [if_neg h1]
        by_cases h2 : k = k'
        · rw [if_pos h2]
          refine List.pairwise_cons.mpr ⟨?_, htl⟩
          intro e he
          rw [h2]
          exact hhead e he
        · rw [if_neg h2]
          refine List.pairwise_cons.mpr ⟨?_, ih htl⟩
          intro e he
          rcases btInsert_mem k v tl e he with hk | hmem
          · rw [hk]
            exact bytesLt_total k k' (Bool.eq_false_iff.mpr h1) h2
          · exact hhead e hmem

theorem foldl_putEntry_sorted (entries : List (List Nat × List Nat)) :
    ∀ d, SortedKeys d → SortedKeys (entries.foldl unsortedPutEntry d) := by
  induction entries with
  | nil => intro d hd; exact hd
  | cons e tl ih =>
      intro d hd
      rw [List.foldl_cons]
      apply ih
      unfold unsortedPutEntry
      by_cases h : e.2 = []
      · rw [if_pos h]
        exact hd
      · rw [if_neg h]
        exact btInsert_sorted e.1 e.2 d hd

/-! ## Claim C9 -/

/-- C9: a map or struct bencoded through the default path
(`requires_sort() == true`, hence `is_sorted == false`, hence the
buffering `UnSortedMapSerializer`) emits its dictionary from the
`BTreeMap` buffer, whose key sequence is strictly increasing in raw byte
order for every presentation order of the entries. -/
theorem bencode_default_sorted_keys (entries : List (List Nat × List Nat)) :
    bencodeMapOutput true entries = unsortedFlush (processEntries entries)
    ∧ List.Pairwise (fun a b => bytesLt a b = true)
        ((processEntries entries).map Prod.fst) := by
  refine ⟨rfl, ?_⟩
  rw [List.pairwise_map]
  exact foldl_putEntry_sorted entries [] List.Pairwise.nil

/-! ## Claim C10 -/

theorem foldl_putEntry_filter (entries : List (List Nat × List Nat)) :
    ∀ d, entries.foldl unsortedPutEntry d
      = (entries.filter (fun e => !(decide (e.2 = [])))).foldl unsortedPutEntry d := by
  induction entries with
  | nil => intro d; rfl
  | cons e tl ih =>
      intro d
      rw [List.foldl_cons]
      by_cases h : e.2 = []
      · have hf : (e :: tl).filter (fun e => !(decide (e.2 = [])))
            = tl.filter (fun e => !(decide (e.2 = []))) := by
          simp [List.filter, h]
        rw [hf]
        have hskip : unsortedPutEntry d e = d := by
          unfold unsortedPutEntry
          rw [if_pos h]
        rw [hskip]
        exact ih d
      · have hf : (e :: tl).filter (fun e => !(decide (e.2 = [])))
            = e :: tl.filter (fun e => !(decide (e.2 = []))) := by
          simp [List.filter, h]
        rw [hf, List.foldl_cons]
        exact ih (unsortedPutEntry d e)

theorem sortedEmit_filter (entries : List (List Nat × List Nat)) :
    ∀ acc, entries.foldl
        (fun acc e => if e.2 = [] then acc else acc ++ encodeBytes e.1 ++ e.2) acc
      = (entries.filter (fun e => !(decide (e.2 = [])))).foldl
        (fun acc e => if e.2 = [] then acc else acc ++ encodeBytes e.1 ++ e.2) acc := by
  induction entries with
  | nil => intro acc; rfl
  | cons e tl ih =>
      intro acc
      rw [List.foldl_cons]
      by_cases h : e.2 = []
      · have hf : (e :: tl).filter (fun e => !(decide (e.2 = [])))
            = tl.filter (fun e => !(decide (e.2 = []))) := by
          simp [List.filter, h]
        rw [hf, if_pos h]
        exact ih acc
      · have hf : (e :: tl).filter (fun e => !(decide (e.2 = [])))
            = e :: tl.filter (fun e => !(decide (e.2 = []))) := by
          simp [List.filter, h]
        rw [hf, List.foldl_cons, if_neg h]
        exact ih (acc ++ encodeBytes e.1 ++ e.2)

/-- C10: an entry whose value serializes to zero bytes is omitted
entirely by both map serializers — the dictionary buffer and the sorted
path's output equal those of the entry list with empty-valued entries
filtered out, so neither the key nor any value bytes reach the output;
and `serialize_none` writes zero bytes, so `None` fields fall under this
rule. -/
theorem bencode_empty_value_omitted (entries : List (List Nat × List Nat)) :
    processEntries entries
      = processEntries (entries.filter (fun e => !(decide (e.2 = []))))
    ∧ sortedMapOutput entries
      = sortedMapOutput (entries.filter (fun e => !(decide (e.2 = []))))
    ∧ serializeNoneBytes = [] := by
  refine ⟨?_, ?_, rfl⟩
  · exact foldl_putEntry_filter entries []
  · unfold sortedMapOutput
    rw [sortedEmit_filter entries []]

/-! ## Announce-flow lemmas (claim C6) -/

theorem registerStep_length (cfg : TSConfigM) (s s1 : MemoryStorage)
    (ih : InfoHash) (h : registerStep cfg s ih = some s1) :
    s1.shards.length = s.shards.length := by
  unfold registerStep at h
  by_cases ht : s.hasTorrent ih
  · rw [if_pos ht] at h
    cases h
    rfl
  · rw [if_neg ht] at h
    by_cases ha : cfg.autoRegisterTorrent
    · rw [if_pos ha] at h
      cases h
      exact length_setShard s ih _
    · rw [if_neg ha] at h
      cases h

theorem registerStep_isSome (cfg : TSConfigM) (s : MemoryStorage) (ih : InfoHash)
    (h : s.hasTorrent ih = true ∨ cfg.autoRegisterTorrent = true) :
    registerStep cfg s ih
      = some (if s.hasTorrent ih then s else s.insertTorrent ih none) := by
  unfold registerStep
  by_cases ht : s.hasTorrent ih
  · rw [if_pos ht, if_pos ht]
  · rcases h with h | h
    · exact absurd h ht
    · rw [if_neg ht, if_neg ht, if_pos h]

theorem registerStep_swarmOf (cfg : TSConfigM) (s s1 : MemoryStorage)
    (ih : InfoHash) (hs : 0 < s.shards.length)
    (h : registerStep cfg s ih = some s1) :
    ∀ (ih' : InfoHash) (fam' : IpType), swarmOf s1 ih' fam' = swarmOf s ih' fam' := by
  intro ih' fam'
  unfold registerStep at h
  by_cases ht : s.hasTorrent ih
  · rw [if_pos ht] at h
    cases h
    rfl
  · rw [if_neg ht] at h
    by_cases ha : cfg.autoRegisterTorrent
    · rw [if_pos ha] at h
      cases h
      exact swarmOf_insertTorrent s hs ih ih' fam' none
    · rw [if_neg ha] at h
      cases h

theorem registerStep_completedOf (cfg : TSConfigM) (s s1 : MemoryStorage)
    (ih : InfoHash) (hs : 0 < s.shards.length)
    (h : registerStep cfg s ih = some s1) :
    ∀ (ih' : InfoHash) (c : Nat), completedOf s ih' = some c →
      completedOf s1 ih' = some c := by
  intro ih' c hc
  unfold registerStep at h
  by_cases ht : s.hasTorrent ih
  · rw [if_pos ht] at h
    cases h
    exact hc
  · rw [if_neg ht] at h
    by_cases ha : cfg.autoRegisterTorrent
    · rw [if_pos ha] at h
      cases h
      rw [completedOf_insertTorrent s hs ih ih' none]
      by_cases hih : ih' = ih
      · subst hih
        rw [hasTorrent_eq_completedOf_isSome, hc] at ht
        simp at ht
      · rw [if_neg hih]
        exact hc
    · rw [if_neg ha] at h
      cases h

/-- The store produced by `announceExecute` past the blocklist and
registration checks: the dispatch of the event against the registered
store (the response phase is read-only). -/
theorem announceExecute_snd (cfg : TSConfigM) (req : AnnounceRequest)
    (ip : IpAddrM) (now : Nat) (s s1 : MemoryStorage)
    (hnb : req.infoHash ∉ cfg.infohashBlocklist)
    (hreg : registerStep cfg s req.infoHash = some s1) :
    (announceExecute cfg req ip now s).2
      = (match req.event with
         | some AnnounceEvent.started =>
             s1.putPeerInSwarm req.infoHash (mkPeerIdKey req.peerId req.key)
               (mkPeer req ip now cfg)
               (if req.left = 0 then PeerType.Seeder else PeerType.Leecher)
         | some AnnounceEvent.stopped =>
             s1.removePeerFromSwarm req.infoHash (mkPeerIdKey req.peerId req.key)
               (if req.left = 0 then PeerType.Seeder else PeerType.Leecher)
               (mkPeer req ip now cfg).ipType
         | some AnnounceEvent.completed =>
             if req.left = 0 then
               (s1.promotePeerInSwarm req.infoHash (mkPeerIdKey req.peerId req.key)
                 (mkPeer req ip now cfg)).2
             else s1
         | some AnnounceEvent.paused =>
             s1.updateOrPutPeerInSwarm req.infoHash (mkPeerIdKey req.peerId req.key)
               (mkPeer req ip now cfg) PeerType.PartialSeed
         | _ =>
             s1.updateOrPutPeerInSwarm req.infoHash (mkPeerIdKey req.peerId req.key)
               (mkPeer req ip now cfg)
               (if req.left = 0 then PeerType.Seeder else PeerType.Leecher)) := by
  unfold announceExecute
  rw [if_neg hnb, hreg]
  dsimp only
  cases hev : req.event with
  | none =>
      dsimp only
      rw [if_neg (fun hcc => Option.noConfusion hcc)]
      cases hst : (s1.updateOrPutPeerInSwarm req.infoHash (mkPeerIdKey req.peerId req.key) (mkPeer req ip now cfg) (if req.left = 0 then PeerType.Seeder else PeerType.Leecher)).getTorrentStats
          req.infoHash ip.ipType with
      | ok stats =>
          cases hex : (s1.updateOrPutPeerInSwarm req.infoHash (mkPeerIdKey req.peerId req.key) (mkPeer req ip now cfg) (if req.left = 0 then PeerType.Seeder else PeerType.Leecher)).extractPeersFromSwarm
              req.infoHash (if req.left = 0 then PeerType.Seeder else PeerType.Leecher) ip.ipType
              (mkResponsePeersExtractor req (mkPeerIdKey req.peerId req.key)
                ip.ipType now cfg) with
          | ok r => rfl
          | error e2 => rfl
      | error e =>
          cases hex : (s1.updateOrPutPeerInSwarm req.infoHash (mkPeerIdKey req.peerId req.key) (mkPeer req ip now cfg) (if req.left = 0 then PeerType.Seeder else PeerType.Leecher)).extractPeersFromSwarm
              req.infoHash (if req.left = 0 then PeerType.Seeder else PeerType.Leecher) ip.ipType
              (mkResponsePeersExtractor req (mkPeerIdKey req.peerId req.key)
                ip.ipType now cfg) with
          | ok r => rfl
          | error e2 => rfl
  | some ev =>
      cases ev with
      | started =>
          dsimp only
          rw [if_neg (fun hcc => AnnounceEvent.noConfusion (Option.some.inj hcc))]
          cases hst : (s1.putPeerInSwarm req.infoHash (mkPeerIdKey req.peerId req.key) (mkPeer req ip now cfg) (if req.left = 0 then PeerType.Seeder else PeerType.Leecher)).getTorrentStats
              req.infoHash ip.ipType with
          | ok stats =>
              cases hex : (s1.putPeerInSwarm req.infoHash (mkPeerIdKey req.peerId req.key) (mkPeer req ip now cfg) (if req.left = 0 then PeerType.Seeder else PeerType.Leecher)).extractPeersFromSwarm
                  req.infoHash (if req.left = 0 then PeerType.Seeder else PeerType.Leecher) ip.ipType
                  (mkResponsePeersExtractor req (mkPeerIdKey req.peerId req.key)
                    ip.ipType now cfg) with
              | ok r => rfl
              | error e2 => rfl
          | error e =>
              cases hex : (s1.putPeerInSwarm req.infoHash (mkPeerIdKey req.peerId req.key) (mkPeer req ip now cfg) (if req.left = 0 then PeerType.Seeder else PeerType.Leecher)).extractPeersFromSwarm
                  req.infoHash (if req.left = 0 then PeerType.Seeder else PeerType.Leecher) ip.ipType
                  (mkResponsePeersExtractor req (mkPeerIdKey req.peerId req.key)
                    ip.ipType now cfg) with
              | ok r => rfl
              | error e2 => rfl
      | stopped =>
          dsimp only
          rw [if_pos rfl]
      | completed =>
          dsimp only
          by_cases hl : req.left = 0
          · simp only [if_pos hl]
            rw [if_neg (fun hcc => hcc rfl)]
            cases hp : s1.promotePeerInSwarm req.infoHash
                (mkPeerIdKey req.peerId req.key) (mkPeer req ip now cfg) with
            | mk r s2 =>
                cases r with
                | error e => rfl
                | ok u =>
                    dsimp only
                    rw [if_neg (fun hcc => AnnounceEvent.noConfusion (Option.some.inj hcc))]
                    cases hst : (s2).getTorrentStats
                        req.infoHash ip.ipType with
                    | ok stats =>
                        cases hex : (s2).extractPeersFromSwarm
                            req.infoHash PeerType.Seeder ip.ipType
                            (mkResponsePeersExtractor req (mkPeerIdKey req.peerId req.key)
                              ip.ipType now cfg) with
                        | ok r => rfl
                        | error e2 => rfl
                    | error e =>
                        cases hex : (s2).extractPeersFromSwarm
                            req.infoHash PeerType.Seeder ip.ipType
                            (mkResponsePeersExtractor req (mkPeerIdKey req.peerId req.key)
                              ip.ipType now cfg) with
                        | ok r => rfl
                        | error e2 => rfl
          · simp only [if_neg hl]
            rw [if_pos (show PeerType.Leecher ≠ PeerType.Seeder from fun hcc => PeerType.noConfusion hcc)]
      | paused =>
          dsimp only
          rw [if_neg (fun hcc => AnnounceEvent.noConfusion (Option.some.inj hcc))]
          cases hst : (s1.updateOrPutPeerInSwarm req.infoHash (mkPeerIdKey req.peerId req.key) (mkPeer req ip now cfg) PeerType.PartialSeed).getTorrentStats
              req.infoHash ip.ipType with
          | ok stats =>
              cases hex : (s1.updateOrPutPeerInSwarm req.infoHash (mkPeerIdKey req.peerId req.key) (mkPeer req ip now cfg) PeerType.PartialSeed).extractPeersFromSwarm
                  req.infoHash PeerType.PartialSeed ip.ipType
                  (mkResponsePeersExtractor req (mkPeerIdKey req.peerId req.key)
                    ip.ipType now cfg) with
              | ok r => rfl
              | error e2 => rfl
          | error e =>
              cases hex : (s1.updateOrPutPeerInSwarm req.infoHash (mkPeerIdKey req.peerId req.key) (mkPeer req ip now cfg) PeerType.PartialSeed).extractPeersFromSwarm
                  req.infoHash PeerType.PartialSeed ip.ipType
                  (mkResponsePeersExtractor req (mkPeerIdKey req.peerId req.key)
                    ip.ipType now cfg) with
              | ok r => rfl
              | error e2 => rfl
      | noneEvent =>
          dsimp only
          rw [if_neg (fun hcc => AnnounceEvent.noConfusion (Option.some.inj hcc))]
          cases hst : (s1.updateOrPutPeerInSwarm req.infoHash (mkPeerIdKey req.peerId req.key) (mkPeer req ip now cfg) (if req.left = 0 then PeerType.Seeder else PeerType.Leecher)).getTorrentStats
              req.infoHash ip.ipType with
          | ok stats =>
              cases hex : (s1.updateOrPutPeerInSwarm req.infoHash (mkPeerIdKey req.peerId req.key) (mkPeer req ip now cfg) (if req.left = 0 then PeerType.Seeder else PeerType.Leecher)).extractPeersFromSwarm
                  req.infoHash (if req.left = 0 then PeerType.Seeder else PeerType.Leecher) ip.ipType
                  (mkResponsePeersExtractor req (mkPeerIdKey req.peerId req.key)
                    ip.ipType now cfg) with
              | ok r => rfl
              | error e2 => rfl
          | error e =>
              cases hex : (s1.updateOrPutPeerInSwarm req.infoHash (mkPeerIdKey req.peerId req.key) (mkPeer req ip now cfg) (if req.left = 0 then PeerType.Seeder else PeerType.Leecher)).extractPeersFromSwarm
                  req.infoHash (if req.left = 0 then PeerType.Seeder else PeerType.Leecher) ip.ipType
                  (mkResponsePeersExtractor req (mkPeerIdKey req.peerId req.key)
                    ip.ipType now cfg) with
              | ok r => rfl
              | error e2 => rfl

/-- The result of `announceExecute` for a `Completed` announce with
`left != 0` past the blocklist and registration checks. -/
theorem announceExecute_fst_invalid (cfg : TSConfigM) (req : AnnounceRequest)
    (ip : IpAddrM) (now : Nat) (s s1 : MemoryStorage)
    (hnb : req.infoHash ∉ cfg.infohashBlocklist)
    (hreg : registerStep cfg s req.infoHash = some s1)
    (hev : req.event = some AnnounceEvent.completed) (hl : req.left ≠ 0) :
    (announceExecute cfg req ip now s).1
      = Except.error TrackerErr.invalidAnnounceRequest := by
  unfold announceExecute
  rw [if_neg hnb, hreg]
  dsimp only
  rw [hev]
  dsimp only
  simp only [if_neg hl]
  rw [if_pos (show PeerType.Leecher ≠ PeerType.Seeder from fun hcc => PeerType.noConfusion hcc)]

theorem announceExecute_blocked (cfg : TSConfigM) (req : AnnounceRequest)
    (ip : IpAddrM) (now : Nat) (s : MemoryStorage)
    (h : req.infoHash ∈ cfg.infohashBlocklist) :
    announceExecute cfg req ip now s
      = (Except.error TrackerErr.blockedInfohash, s) := by
  unfold announceExecute
  rw [if_pos h]

theorem announceExecute_noreg (cfg : TSConfigM) (req : AnnounceRequest)
    (ip : IpAddrM) (now : Nat) (s : MemoryStorage)
    (hnb : req.infoHash ∉ cfg.infohashBlocklist)
    (hr : registerStep cfg s req.infoHash = none) :
    announceExecute cfg req ip now s
      = (Except.error TrackerErr.notFoundTorrent, s) := by
  unfold announceExecute
  rw [if_neg hnb, hr]

/-! ## Claim C6 -/

/-- C6 (amended): for an announce with event `Completed` that passes the
blocklist check and is registered (or auto-registrable): if `left != 0`
the task fails with `InvalidAnnounceRequest` and performs no peer-table
mutation and no completed-counter change; if `left == 0` the handler's
store transition is exactly `promote_peer_in_swarm` applied to the
registered store. Moreover — for every announce, any event — the only
way any completed counter changes is an increment by exactly 1 through
that promotion, with the key previously in leechers. Amendment: the
claim's unscoped "fails with InvalidAnnounceRequest" also covered
blocklisted or unregistered requests, which fail earlier with
`BlockedInfohash` / `NotFoundTorrent` (see the counterexample); the
amended claim scopes the guard to requests that reach the event
dispatch. -/
theorem completed_event_guard (cfg : TSConfigM) (req : AnnounceRequest)
    (ip : IpAddrM) (now : Nat) (s : MemoryStorage) (hs : 0 < s.shards.length) :
    (req.event = some AnnounceEvent.completed → req.left ≠ 0 →
      req.infoHash ∉ cfg.infohashBlocklist →
      (s.hasTorrent req.infoHash = true ∨ cfg.autoRegisterTorrent = true) →
      (announceExecute cfg req ip now s).1
          = Except.error TrackerErr.invalidAnnounceRequest
      ∧ (∀ (ih' : InfoHash) (fam' : IpType),
          swarmOf (announceExecute cfg req ip now s).2 ih' fam' = swarmOf s ih' fam')
      ∧ (∀ (ih' : InfoHash) (c : Nat), completedOf s ih' = some c →
          completedOf (announceExecute cfg req ip now s).2 ih' = some c))
    ∧ (req.event = some AnnounceEvent.completed → req.left = 0 →
      req.infoHash ∉ cfg.infohashBlocklist →
      (s.hasTorrent req.infoHash = true ∨ cfg.autoRegisterTorrent = true) →
      ∃ s1, registerStep cfg s req.infoHash = some s1
        ∧ (announceExecute cfg req ip now s).2
          = (s1.promotePeerInSwarm req.infoHash (mkPeerIdKey req.peerId req.key)
              (mkPeer req ip now cfg)).2)
    ∧ (∀ (ih' : InfoHash) (c : Nat), completedOf s ih' = some c →
        completedOf (announceExecute cfg req ip now s).2 ih' = some c
        ∨ (completedOf (announceExecute cfg req ip now s).2 ih' = some (c + 1)
           ∧ req.event = some AnnounceEvent.completed
           ∧ req.left = 0
           ∧ ih' = req.infoHash
           ∧ imContains (swarmOf s req.infoHash
               (mkPeer req ip now cfg).ipType).leechers
               (mkPeerIdKey req.peerId req.key) = true)) := by
  refine ⟨?_, ?_, ?_⟩
  · intro hev hl hnb hro
    have hr := registerStep_isSome cfg s req.infoHash hro
    have hs1 : 0 < (if s.hasTorrent req.infoHash then s
        else s.insertTorrent req.infoHash none).shards.length := by
      rw [registerStep_length cfg s _ req.infoHash hr]
      exact hs
    refine ⟨announceExecute_fst_invalid cfg req ip now s _ hnb hr hev hl, ?_, ?_⟩
    · intro ih' fam'
      rw [announceExecute_snd cfg req ip now s _ hnb hr, hev]
      dsimp only
      rw [if_neg hl]
      exact registerStep_swarmOf cfg s _ req.infoHash hs hr ih' fam'
    · intro ih' c hc
      rw [announceExecute_snd cfg req ip now s _ hnb hr, hev]
      dsimp only
      rw [if_neg hl]
      exact registerStep_completedOf cfg s _ req.infoHash hs hr ih' c hc
  · intro hev hl hnb hro
    have hr := registerStep_isSome cfg s req.infoHash hro
    refine ⟨_, hr, ?_⟩
    rw [announceExecute_snd cfg req ip now s _ hnb hr, hev]
    dsimp only
    rw [if_pos hl]
  · intro ih' c hc
    by_cases hb : req.infoHash ∈ cfg.infohashBlocklist
    · rw [announceExecute_blocked cfg req ip now s hb]
      exact Or.inl hc
    · cases hr : registerStep cfg s req.infoHash with
      | none =>
          rw [announceExecute_noreg cfg req ip now s hb hr]
          exact Or.inl hc
      | some s1 =>
          have hs1 : 0 < s1.shards.length := by
            rw [registerStep_length cfg s s1 req.infoHash hr]
            exact hs
          have hc1 : completedOf s1 ih' = some c :=
            registerStep_completedOf cfg s s1 req.infoHash hs hr ih' c hc
          rw [announceExecute_snd cfg req ip now s s1 hb hr]
          cases hev : req.event with
          | none =>
              dsimp only
              rw [completedOf_updateOrPutPeerInSwarm s1 hs1]
              exact Or.inl hc1
          | some ev =>
              cases ev with
              | started =>
                  dsimp only
                  rw [completedOf_putPeerInSwarm s1 hs1]
                  exact Or.inl hc1
              | stopped =>
                  dsimp only
                  rw [completedOf_removePeerFromSwarm s1 hs1]
                  exact Or.inl hc1
              | paused =>
                  dsimp only
                  rw [completedOf_updateOrPutPeerInSwarm s1 hs1]
                  exact Or.inl hc1
              | noneEvent =>
                  dsimp only
                  rw [completedOf_updateOrPutPeerInSwarm s1 hs1]
                  exact Or.inl hc1
              | completed =>
                  dsimp only
                  by_cases hl : req.left = 0
                  · rw [if_pos hl]
                    rw [completedOf_promotePeerInSwarm s1 hs1]
                    by_cases hcond : ih' = req.infoHash
                        ∧ imContains (swarmOf s1 req.infoHash
                            (mkPeer req ip now cfg).ipType).leechers
                            (mkPeerIdKey req.peerId req.key) = true
                    · rw [if_pos hcond, hc1]
                      refine Or.inr ⟨rfl, rfl, hl, hcond.1, ?_⟩
                      rw [← registerStep_swarmOf cfg s s1 req.infoHash hs hr
                        req.infoHash (mkPeer req ip now cfg).ipType]
                      exact hcond.2
                    · rw [if_neg hcond]
                      exact Or.inl hc1
                  · rw [if_neg hl]
                    exact Or.inl hc1

/-- C6 counterexample: a blocklisted infohash announced with event
`Completed` and `left = 1` fails with `BlockedInfohash`, not with
`InvalidAnnounceRequest` as the claim's unscoped wording requires. -/
theorem completed_event_guard_counterexample :
    (announceExecute ⟨[List.replicate 20 11], true, 50, 100, 1800, 900, 7200⟩
        ⟨List.replicate 20 11, List.replicate 20 12, none, 80, 0, 0, 1, true,
          false, some AnnounceEvent.completed, none⟩
        (IpAddrM.v4 [1, 2, 3, 4]) 0 (mkMemoryStorage 1)).1
      = Except.error TrackerErr.blockedInfohash
    ∧ (⟨List.replicate 20 11, List.replicate 20 12, none, 80, 0, 0, 1, true,
          false, some AnnounceEvent.completed, none⟩ : AnnounceRequest).event
      = some AnnounceEvent.completed
    ∧ (⟨List.replicate 20 11, List.replicate 20 12, none, 80, 0, 0, 1, true,
          false, some AnnounceEvent.completed, none⟩ : AnnounceRequest).left ≠ 0
    ∧ ¬((announceExecute ⟨[List.replicate 20 11], true, 50, 100, 1800, 900, 7200⟩
        ⟨List.replicate 20 11, List.replicate 20 12, none, 80, 0, 0, 1, true,
          false, some AnnounceEvent.completed, none⟩
        (IpAddrM.v4 [1, 2, 3, 4]) 0 (mkMemoryStorage 1)).1
      = Except.error TrackerErr.invalidAnnounceRequest) := by
  decide

/-- Witness for C6: a non-blocked auto-registered `Completed` announce
with `left = 1` fails with `InvalidAnnounceRequest`. -/
theorem completed_event_guard_witness :
    (announceExecute ⟨[], true, 50, 100, 1800, 900, 7200⟩
        ⟨List.replicate 20 13, List.replicate 20 14, none, 80, 0, 0, 1, true,
          false, some AnnounceEvent.completed, none⟩
        (IpAddrM.v4 [1, 2, 3, 4]) 0 (mkMemoryStorage 1)).1
      = Except.error TrackerErr.invalidAnnounceRequest := by
  have h := (completed_event_guard ⟨[], true, 50, 100, 1800, 900, 7200⟩
      ⟨List.replicate 20 13, List.replicate 20 14, none, 80, 0, 0, 1, true,
        false, some AnnounceEvent.completed, none⟩
      (IpAddrM.v4 [1, 2, 3, 4]) 0 (mkMemoryStorage 1) (by decide)).1
  exact (h rfl (by decide) (by decide) (Or.inr rfl)).1

end TorShare
